import Mathlib

/-!
Verification of the KOI entity-resolution core: a shallow embedding of
`entity-deduplication-system.py` (normalizer, similarity engine, matching,
merge/mint, relationship deduplication) and
`extractors/provenance-tracking-system.py` (observation store, canonical
entities, content-addressed transformation ledger), together with proofs and
refutations of the specified properties.

Modelling conventions:
* Python strings are lists of Unicode code points (`Str := List Nat`); the
  regular-expression classes `\w`/`\s` are modelled over ASCII.
* Python dicts are insertion-ordered association lists, Python sets are
  insertion-ordered duplicate-free lists.
* Floating-point arithmetic is modelled by exact real arithmetic (`ℝ`).
* Truncated SHA-256 digests and uuid4 identifiers are modelled by an
  injective constructor (`Digest`) resp. a fresh counter: collisions are
  assumed not to occur.
-/

namespace Koi

/-- Strings as lists of Unicode code points. -/
abbrev Str : Type := List Nat

/-- Code points of a Lean string literal: lets concrete inputs stay readable. -/
def str (s : String) : Str := s.data.map Char.toNat

/-- Python `str.lower` on one ASCII code point. -/
def pyLower (c : Nat) : Nat := if 65 ≤ c ∧ c ≤ 90 then c + 32 else c

/-- Python whitespace (`str.split`, `\s`), ASCII part. -/
def isSpace (c : Nat) : Bool := c == 32 || c == 9 || c == 10 || c == 13 || c == 11 || c == 12

/-- The `\w` class (word characters), ASCII part. -/
def isWordChar (c : Nat) : Bool :=
  (48 ≤ c && c ≤ 57) || (65 ≤ c && c ≤ 90) || (97 ≤ c && c ≤ 122) || c == 95

/-- Code points kept by `re.sub(r'[^\w\s-]', '', _)` in `normalize_name`. -/
def keepChar (c : Nat) : Bool := isWordChar c || isSpace c || c == 45

/-- Whitespace split, dropping empty chunks: Python `str.split()`.
`cur` accumulates the current word in reverse. -/
def wordsAux : Str → Str → List Str
  | [], cur => if cur = [] then [] else [cur.reverse]
  | c :: rest, cur =>
    if isSpace c then
      (if cur = [] then wordsAux rest [] else cur.reverse :: wordsAux rest [])
    else wordsAux rest (c :: cur)

/-- Python `s.split()`. -/
def words (s : Str) : List Str := wordsAux s []

/-- Python `' '.join(ws)`. -/
def joinSp (ws : List Str) : Str := (List.intersperse [32] ws).flatten

/-- The fixed legal-suffix list of `normalize_name`. -/
def suffixes : List Str :=
  [str " inc", str " llc", str " corp", str " corporation", str " limited", str " ltd"]

/-- The suffix-trimming loop of `normalize_name`: each listed suffix is tried
once, in order, against the current value. -/
def stripSuffixes (n : Str) : Str :=
  suffixes.foldl (fun m suf => if suf <:+ m then m.take (m.length - suf.length) else m) n

/-- Python `str.strip()` (whitespace on both ends). -/
def trim (s : Str) : Str := ((s.dropWhile isSpace).reverse.dropWhile isSpace).reverse

/-- `EntityDeduplicator.normalize_name`: lowercase, drop characters outside
`\w`/`\s`/hyphen, collapse whitespace, trim legal suffixes, strip. -/
def normalize_name (name : Str) : Str :=
  trim (stripSuffixes (joinSp (words (List.filter keepChar (name.map pyLower)))))

/-- A truncated SHA-256 digest, modelled as an injective tag of its preimage
(collisions of the 12-hex-digit digest are assumed not to occur). -/
structure Digest (α : Type) where
  preimage : α
deriving DecidableEq, Repr

/-- A canonical identifier `entity:{type.lower()}:{sha256(type:normalized)[:12]}`. -/
structure CanId where
  ty_lower : Str
  tag : Digest Str
deriving DecidableEq, Repr

/-- `EntityDeduplicator.generate_canonical_id`. Code point 58 is `:`. -/
def generate_canonical_id (entity_type name : Str) : CanId :=
  ⟨entity_type.map pyLower, ⟨entity_type ++ 58 :: normalize_name name⟩⟩

/-- Python values appearing in entity records: strings, numbers, and lists of
strings (list values with unhashable elements make the Python merge raise in
`set()` and are out of scope). -/
inductive Val where
  | s (v : Str)
  | n (v : ℚ)
  | l (v : List Str)
deriving DecidableEq, Repr

/-- Python truthiness for `Val`. -/
def Val.truthy : Val → Bool
  | .s v => !v.isEmpty
  | .n q => q != 0
  | .l v => !v.isEmpty

/-- An entity record (`Dict`): an insertion-ordered association list. -/
abbrev Entity : Type := List (Str × Val)

/-- Association-list lookup (Python `d.get(k)` / `k in d`). -/
def lookupL {α β : Type} [DecidableEq α] (l : List (α × β)) (k : α) : Option β :=
  (l.find? (fun kv => decide (kv.1 = k))).map (·.2)

/-- Lookup with default (Python `d.get(k, dflt)` / `defaultdict`). -/
def lookupD {α β : Type} [DecidableEq α] (l : List (α × β)) (k : α) (d : β) : β :=
  (lookupL l k).getD d

/-- Dict assignment `d[k] = v`: replaces in place, or appends a new key. -/
def setKey {α β : Type} [DecidableEq α] : List (α × β) → α → β → List (α × β)
  | [], k, v => [(k, v)]
  | kv :: rest, k, v => if kv.1 = k then (k, v) :: rest else kv :: setKey rest k v

/-- Python `set.add` on an insertion-ordered duplicate-free list. -/
def addElem {α : Type} [DecidableEq α] (l : List α) (x : α) : List α :=
  if x ∈ l then l else l ++ [x]

/-- `entity.get(k)` for `Entity`. -/
def getKey (e : Entity) (k : Str) : Option Val := lookupL e k

/-- String-valued field access `entity.get(k, dflt)`. A non-string value in a
string position makes the Python code raise later; modelled as the default. -/
def strGet (e : Entity) (k : Str) (dflt : Str) : Str :=
  match getKey e k with
  | some (.s v) => v
  | _ => dflt

/-- Truthiness of `entity.get(k)` (missing keys are falsy). -/
def keyTruthy (e : Entity) (k : Str) : Bool :=
  match getKey e k with
  | some v => v.truthy
  | none => false

/-- `EntitySignature` from `entity-deduplication-system.py`. Sets become
insertion-ordered lists; confidence is a real number. -/
structure EntitySignature where
  canonical_name : Str
  entity_type : Str
  aliases : List Str
  properties : List (Str × Val)
  source_documents : List Val
  confidence : ℝ

/-- The mutable state of an `EntityDeduplicator`. -/
structure DState where
  similarity_threshold : ℝ
  entity_registry : List (CanId × EntitySignature)
  name_index : List (Str × List CanId)
  type_index : List (Str × List CanId)

/-- A fresh deduplicator (`EntityDeduplicator.__init__`). -/
def init_state (thr : ℝ) : DState := ⟨thr, [], [], []⟩

noncomputable section

/-- The inner loop of fuzzy matching: scan the canonical name and the aliases
in order, returning the first similarity score at or above the threshold
(the Python loop `break`s on the first hit). -/
def scanNames (sim : Str → Str → ℝ) (thr : ℝ) (n : Str) : List Str → Option ℝ
  | [] => none
  | nm :: rest => if thr ≤ sim n nm then some (sim n nm) else scanNames sim thr n rest

/-- Stable insertion for descending sort by score. -/
def insertDesc (x : CanId × ℝ) : List (CanId × ℝ) → List (CanId × ℝ)
  | [] => [x]
  | y :: ys => if y.2 ≤ x.2 then x :: y :: ys else y :: insertDesc x ys

/-- `sorted(matches, key=score, reverse=True)`: a stable descending sort. -/
def sortDesc (l : List (CanId × ℝ)) : List (CanId × ℝ) := l.foldr insertDesc []

/-- The `seen`-set deduplication at the end of `find_matches`: keep the first
(highest-ranked) entry per canonical id. -/
def dedupMatches : List (CanId × ℝ) → List CanId → List (CanId × ℝ)
  | [], _ => []
  | m :: rest, seen =>
    if m.1 ∈ seen then dedupMatches rest seen else m :: dedupMatches rest (m.1 :: seen)

/-- One property-strategy candidate group for one registry entry: email and
website matches score 0.95, identifier matches score 1.0, appended in the
order the Python code appends them. -/
def propCandidates (entity : Entity) (kv : CanId × EntitySignature) : List (CanId × ℝ) :=
  (match getKey entity (str "email") with
   | some v =>
     if v.truthy ∧ lookupL kv.2.properties (str "email") = some v then [(kv.1, (95/100 : ℝ))] else []
   | none => []) ++
  (match getKey entity (str "website") with
   | some v =>
     if v.truthy ∧ lookupL kv.2.properties (str "website") = some v then [(kv.1, (95/100 : ℝ))] else []
   | none => []) ++
  (match getKey entity (str "identifier") with
   | some v =>
     if v.truthy ∧ lookupL kv.2.properties (str "identifier") = some v then [(kv.1, (1 : ℝ))] else []
   | none => [])

/-- Strategy 1 of `find_matches`: exact match on the normalized name through
the name index, restricted to the same entity type, score 1.0. -/
def exact_part (st : DState) (entity : Entity) : List (CanId × ℝ) :=
  (lookupD st.name_index (normalize_name (strGet entity (str "name") [])) []).filterMap
    (fun cid =>
      match lookupL st.entity_registry cid with
      | some sig =>
        if sig.entity_type = strGet entity (str "@type") [] then some (cid, (1 : ℝ)) else none
      | none => none)

/-- Strategy 2 of `find_matches`: fuzzy matching against the canonical name
and aliases of every registry entry filed under the observation's type. -/
def fuzzy_part (sim : Str → Str → ℝ) (st : DState) (entity : Entity) : List (CanId × ℝ) :=
  (lookupD st.type_index (strGet entity (str "@type") []) []).flatMap (fun cid =>
    match lookupL st.entity_registry cid with
    | some sig =>
      match scanNames sim st.similarity_threshold (strGet entity (str "name") [])
          (sig.canonical_name :: sig.aliases) with
      | some s => [(cid, s)]
      | none => []
    | none => [])

/-- Strategy 3 of `find_matches`: property-based matching on email, website
and identifier, restricted to the same entity type. -/
def prop_part (st : DState) (entity : Entity) : List (CanId × ℝ) :=
  if keyTruthy entity (str "email") ∨ keyTruthy entity (str "website") ∨
      keyTruthy entity (str "identifier") then
    st.entity_registry.flatMap (fun kv =>
      if kv.2.entity_type = strGet entity (str "@type") [] then propCandidates entity kv
      else [])
  else []

/-- `EntityDeduplicator.find_matches`, parameterized by the similarity oracle
(the method `calculate_similarity`, instantiated in the claim theorems):
empty names match nothing; otherwise the three strategies contribute
candidates, which are stably sorted by descending score and deduplicated
keeping the first entry per canonical id. -/
def find_matches (sim : Str → Str → ℝ) (st : DState) (entity : Entity) : List (CanId × ℝ) :=
  if strGet entity (str "name") [] = [] then []
  else dedupMatches
    (sortDesc (exact_part st entity ++ fuzzy_part sim st entity ++ prop_part st entity)) []

/-- `EntityDeduplicator.merge_entities`. The `none` branch mirrors a Python
`KeyError`; it is unreachable because callers pass ids found in the registry. -/
def merge_entities (st : DState) (canonical_id : CanId) (new_entity : Entity)
    (confidence : ℝ) : DState :=
  match lookupL st.entity_registry canonical_id with
  | none => st
  | some signature =>
    let new_name := strGet new_entity (str "name") []
    let aliases :=
      if new_name ≠ [] ∧ normalize_name new_name ≠ normalize_name signature.canonical_name
      then addElem signature.aliases new_name else signature.aliases
    let properties := new_entity.foldl (fun props kv =>
      if kv.1 = str "@id" ∨ kv.1 = str "@type" ∨ kv.1 = str "name" then props
      else if ¬ kv.2.truthy then props
      else match lookupL props kv.1 with
        | none => setKey props kv.1 kv.2
        | some old =>
          if ¬ old.truthy then setKey props kv.1 kv.2
          else match old, kv.2 with
            | .l a, .l b => setKey props kv.1 (.l ((a ++ b).dedup))
            | _, _ => props) signature.properties
    let source_documents :=
      match getKey new_entity (str "foundIn") with
      | some v => if v.truthy then addElem signature.source_documents v
                  else signature.source_documents
      | none => signature.source_documents
    let sig2 : EntitySignature :=
      ⟨signature.canonical_name, signature.entity_type, aliases, properties,
       source_documents, (signature.confidence + confidence) / 2⟩
    { st with entity_registry := setKey st.entity_registry canonical_id sig2 }

/-- The `EntitySignature` built by the mint branch of `add_entity`: note that
the `confidence` field is left at the dataclass default `1.0`. -/
def mint_signature (entity : Entity) : EntitySignature :=
  { canonical_name := strGet entity (str "name") []
    entity_type := strGet entity (str "@type") []
    aliases := []
    properties := entity.filter (fun kv =>
      ¬ (kv.1 = str "@id" ∨ kv.1 = str "@type" ∨ kv.1 = str "name"))
    source_documents :=
      match getKey entity (str "foundIn") with
      | some v => if v.truthy then [v] else []
      | none => []
    confidence := 1 }

/-- The mint branch of `add_entity`: create a new canonical entity and update
both indices. The `Bool` in the result records whether the call merged. -/
def mint_entity (st : DState) (entity : Entity) : CanId × Bool × DState :=
  let canonical_id := generate_canonical_id
    (strGet entity (str "@type") (str "Unknown")) (strGet entity (str "name") (str "unnamed"))
  let signature : EntitySignature := mint_signature entity
  let normalized := normalize_name signature.canonical_name
  (canonical_id, false,
    { st with
      entity_registry := setKey st.entity_registry canonical_id signature
      name_index := setKey st.name_index normalized
        (addElem (lookupD st.name_index normalized []) canonical_id)
      type_index := setKey st.type_index signature.entity_type
        (addElem (lookupD st.type_index signature.entity_type []) canonical_id) })

/-- `EntityDeduplicator.add_entity`: merge with the best match when its score
reaches the threshold, otherwise mint. Also returns whether it merged. -/
def add_entity (sim : Str → Str → ℝ) (st : DState) (entity : Entity) :
    CanId × Bool × DState :=
  match find_matches sim st entity with
  | (cid, conf) :: _ =>
    if st.similarity_threshold ≤ conf then (cid, true, merge_entities st cid entity conf)
    else mint_entity st entity
  | [] => mint_entity st entity

/-- Process a list of entities in order, returning the final state and, per
entity, the canonical id it resolved to and whether it was merged. -/
def runSteps (sim : Str → Str → ℝ) : DState → List Entity → DState × List (CanId × Bool × Entity)
  | st, [] => (st, [])
  | st, e :: rest =>
    let r := add_entity sim st e
    let r2 := runSteps sim r.2.2 rest
    (r2.1, (r.1, r.2.1, e) :: r2.2)

/-- Number of `add_entity` calls that merged rather than minted. -/
def mergeCount (evs : List (CanId × Bool × Entity)) : Nat :=
  (evs.filter (fun ev => ev.2.1)).length

end

/-! ### The similarity engine

`calculate_similarity` uses a `TfidfVectorizer(analyzer='char_wb',
ngram_range=(2,4), lowercase=True)` fitted jointly on the two names, followed
by cosine similarity; sklearn floating point is modelled by exact real
arithmetic. The `try` block raises exactly when the joint vocabulary is empty
(neither string yields an n-gram), in which case the code falls back to
character-set overlap. -/

/-- Python slice `w[off : off+n]`. -/
def slice (w : Str) (off n : Nat) : Str := (w.drop off).take n

/-- All length-`n` slices of `w` at offsets `0 .. w.length - n` (a single
clamped slice when `n ≥ w.length`, matching the sklearn loop). -/
def gramsAt (w : Str) (n : Nat) : List Str :=
  (List.range (w.length - n + 1)).map (fun off => slice w off n)

/-- sklearn `_char_wb_ngrams` for one word: pad with spaces, take n-grams for
n = 2, 3, 4, stopping after the first n that covers the whole padded word. -/
def charWbWord (w : Str) : List Str :=
  let p : Str := 32 :: (w ++ [32])
  if p.length ≤ 2 then [p]
  else if p.length = 3 then gramsAt p 2 ++ [p]
  else if p.length = 4 then gramsAt p 2 ++ gramsAt p 3 ++ [p]
  else gramsAt p 2 ++ gramsAt p 3 ++ gramsAt p 4

/-- The full `char_wb` analyzer: lowercase, split on whitespace, n-grams per
word. -/
def analyze (doc : Str) : List Str := (words (doc.map pyLower)).flatMap charWbWord

/-- Term frequency of n-gram `g` in `doc`. -/
def tf (doc : Str) (g : Str) : Nat := (analyze doc).count g

/-- The joint vocabulary of the two fitted documents. -/
def vocabL (d1 d2 : Str) : List Str := (analyze d1 ++ analyze d2).dedup

/-- Document frequency of `g` across the two fitted documents. -/
def df (d1 d2 : Str) (g : Str) : Nat :=
  (if g ∈ analyze d1 then 1 else 0) + (if g ∈ analyze d2 then 1 else 0)

/-- Sum over the vocabulary of products of term frequencies: the data entering
the rational bounds on the cosine. -/
def tfDot (da db d1 d2 : Str) : Nat :=
  ((vocabL d1 d2).map (fun g => tf da g * tf db g)).sum

noncomputable section

/-- Smoothed idf of sklearn with two documents: `ln((1+2)/(1+df)) + 1`. -/
def idf (d1 d2 : Str) (g : Str) : ℝ := Real.log (3 / (1 + (df d1 d2 g : ℝ))) + 1

/-- tf-idf weight of `g` in the first document. -/
def wA (d1 d2 : Str) (g : Str) : ℝ := (tf d1 g : ℝ) * idf d1 d2 g

/-- tf-idf weight of `g` in the second document. -/
def wB (d1 d2 : Str) (g : Str) : ℝ := (tf d2 g : ℝ) * idf d1 d2 g

/-- Cosine similarity of the two tf-idf vectors (l2 normalization of a zero
vector leaves it zero in sklearn; here division by zero yields zero). -/
def tfidf_cosine (d1 d2 : Str) : ℝ :=
  (∑ g ∈ (vocabL d1 d2).toFinset, wA d1 d2 g * wB d1 d2 g) /
    (Real.sqrt (∑ g ∈ (vocabL d1 d2).toFinset, (wA d1 d2 g) ^ 2) *
     Real.sqrt (∑ g ∈ (vocabL d1 d2).toFinset, (wB d1 d2 g) ^ 2))

end

/-- `set(name.lower().replace(' ', ''))`: the character set of the lowercased
name with plain spaces removed. -/
def charSet (s : Str) : Finset Nat :=
  ((s.map pyLower).filter (fun c => !(c == 32))).toFinset

noncomputable section

/-- The `except` fallback of `calculate_similarity`: character-set overlap
(Jaccard), zero when either set is empty. -/
def fallback_overlap (a b : Str) : ℝ :=
  if charSet a = ∅ ∨ charSet b = ∅ then 0
  else ((charSet a ∩ charSet b).card : ℝ) / ((charSet a ∪ charSet b).card : ℝ)

/-- `EntityDeduplicator.calculate_similarity`. -/
def calculate_similarity (name1 name2 : Str) : ℝ :=
  if name1 = [] ∨ name2 = [] then 0
  else if normalize_name name1 = normalize_name name2 then 1
  else if vocabL name1 name2 = [] then fallback_overlap name1 name2
  else tfidf_cosine name1 name2

end

/-! ### The relationship deduplicator -/

/-- The fixed predicate synonym table of
`RelationshipDeduplicator.normalize_relationship`, as written in the source
(note the mixed-case `evidenceFor` key). -/
def predicate_map : List (Str × Str) :=
  [(str "supports", str "supports"), (str "support", str "supports"),
   (str "evidenceFor", str "supports"), (str "opposes", str "opposes"),
   (str "oppose", str "opposes"), (str "contradicts", str "opposes"),
   (str "addresses", str "addresses"), (str "address", str "addresses"),
   (str "answers", str "addresses")]

/-- `RelationshipDeduplicator.normalize_relationship`: the predicate is
lowercased and then looked up in the synonym table, defaulting to itself. -/
def normalize_relationship (subject predicate obj : Str) : Str × Str × Str :=
  (subject, lookupD predicate_map (predicate.map pyLower) (predicate.map pyLower), obj)

/-- The state of a `RelationshipDeduplicator`: dedup key → properties. -/
abbrev RState : Type := List ((Str × Str × Str) × List (Str × Val))

/-- `RelationshipDeduplicator.add_relationship`: insert under the normalized
triple, or merge properties first-write-wins per key. -/
def add_relationship (st : RState) (subject predicate obj : Str)
    (properties : List (Str × Val)) : RState :=
  let triple := normalize_relationship subject predicate obj
  match lookupL st triple with
  | none => setKey st triple properties
  | some existing =>
    setKey st triple (properties.foldl (fun acc kv =>
      match lookupL acc kv.1 with
      | none => setKey acc kv.1 kv.2
      | some _ => acc) existing)

/-! ### The provenance tracker

`extractors/provenance-tracking-system.py`. uuid4 identifiers are modelled by
a fresh counter, `datetime.now` by a clock counter that ticks once per
operation (all timestamps taken inside one call coincide, as they do at
resolution granularity). -/

/-- `EntityObservation` (the `position` dict is carried opaquely). -/
structure PObs where
  entity_type : Str
  name : Str
  properties : List (Str × Val)
  source_document : Str
  source_cid : Str
  extraction_timestamp : Nat
  extraction_method : Str
  position : List (Str × Val)
  confidence : ℚ
deriving DecidableEq, Repr

/-- The replay-relevant core of a `CanonicalEntity`: primary name, type, name
variants, merged properties, and contributing observation ids (observation
objects are immutable and keyed by id, so membership is modelled by ids). -/
structure PCanCore where
  primary_name : Str
  entity_type : Str
  all_names : List Str
  merged_properties : List (Str × Val)
  observations : List Nat
deriving DecidableEq, Repr

/-- A `CanonicalEntity`: the core plus the audit-only fields. -/
structure PCan where
  core : PCanCore
  resolutions : List Nat
  created_at : Nat
  last_updated : Nat
deriving DecidableEq, Repr

/-- `EntityResolution`. -/
structure PRes where
  canonical_id : Nat
  observation_ids : List Nat
  resolution_method : Str
  resolution_confidence : ℚ
  resolution_timestamp : Nat
deriving DecidableEq, Repr

/-- The payload of a transformation record (CAT entry). -/
inductive TPayload where
  | extract (fromState : Str) (toState : Nat) (method : Str) (timestamp : Nat) (confidence : ℚ)
  | resolveT (fromState : List Nat) (toState : Nat) (method : Str) (timestamp : Nat)
      (confidence : ℚ)
deriving DecidableEq, Repr

/-- A recorded transformation: `record_transformation` stamps the payload with
a content id (modelled injectively, like the other digests). -/
structure TRec where
  payload : TPayload
  cid : Digest TPayload
deriving DecidableEq, Repr

/-- `ProvenanceTracker.record_transformation`. -/
def record_transformation (log : List TRec) (payload : TPayload) : List TRec :=
  log ++ [⟨payload, ⟨payload⟩⟩]

/-- The mutable state of a `ProvenanceTracker`. -/
structure PTState where
  observations : List (Nat × PObs)
  resolutions : List (Nat × PRes)
  canonical : List (Nat × PCan)
  name_to_observations : List (Str × List Nat)
  doc_to_observations : List (Str × List Nat)
  canonical_to_observations : List (Nat × List Nat)
  transformations : List TRec
  fresh : Nat
  clock : Nat

/-- A fresh tracker (`ProvenanceTracker.__init__`). -/
def pinit : PTState := ⟨[], [], [], [], [], [], [], 0, 0⟩

/-- `ProvenanceTracker.normalize_name`:
`name.lower().strip().replace('.', '').replace(',', '')`. -/
def prov_normalize_name (name : Str) : Str :=
  ((trim (name.map pyLower)).filter (fun c => !(c == 46))).filter (fun c => !(c == 44))

/-- `ProvenanceTracker.record_observation`. -/
def record_observation (st : PTState) (entity : Entity) (source_doc source_cid : Str)
    (position : List (Str × Val)) (method : Str) : Nat × PTState :=
  let observation_id := st.fresh
  let obs : PObs :=
    { entity_type := strGet entity (str "@type") (str "Unknown")
      name := strGet entity (str "name") []
      properties := entity.filter (fun kv =>
        ¬ (kv.1 = str "@type" ∨ kv.1 = str "name" ∨ kv.1 = str "@id"))
      source_document := source_doc
      source_cid := source_cid
      extraction_timestamp := st.clock
      extraction_method := method
      position := position
      confidence :=
        match getKey entity (str "confidence") with
        | some (.n q) => q
        | some _ => 1
        | none => 1 }
  let normalized := prov_normalize_name obs.name
  (observation_id,
    { st with
      observations := st.observations ++ [(observation_id, obs)]
      name_to_observations := setKey st.name_to_observations normalized
        (lookupD st.name_to_observations normalized [] ++ [observation_id])
      doc_to_observations := setKey st.doc_to_observations source_doc
        (lookupD st.doc_to_observations source_doc [] ++ [observation_id])
      transformations := record_transformation st.transformations
        (.extract source_cid observation_id method obs.extraction_timestamp obs.confidence)
      fresh := st.fresh + 1
      clock := st.clock + 1 })

/-- `ProvenanceTracker.find_matching_canonical`: first canonical entity (in
insertion order) of the observation's type with some known name whose
normalization matches. The fuzzy part is a `TODO` in the source. -/
def find_matching_canonical (st : PTState) (observation_id : Nat) : Option Nat :=
  match lookupL st.observations observation_id with
  | none => none
  | some observation =>
    let normalized := prov_normalize_name observation.name
    (st.canonical.find? (fun kv =>
      decide (kv.2.core.entity_type = observation.entity_type) &&
      kv.2.core.all_names.any (fun nm => decide (prov_normalize_name nm = normalized)))).map
      (·.1)

/-- The per-observation merge step of `create_canonical_entity`: append the
observation, add its name to the known names, merge its properties
(first-write-wins per key, list values unioned). -/
def applyObs (observations : List (Nat × PObs)) (core : PCanCore) (obs_id : Nat) : PCanCore :=
  match lookupL observations obs_id with
  | none => core
  | some obs =>
    { core with
      observations := core.observations ++ [obs_id]
      all_names := addElem core.all_names obs.name
      merged_properties := obs.properties.foldl (fun mp kv =>
        match lookupL mp kv.1 with
        | none => setKey mp kv.1 kv.2
        | some old =>
          match old, kv.2 with
          | .l a, .l b => setKey mp kv.1 (.l ((a ++ b).dedup))
          | _, _ => mp) core.merged_properties }

/-- Apply one `Resolve` event to a store of canonical cores: reuse the target
when present, otherwise mint it from the first observation, then merge every
listed observation in order. Shared by live processing and replay. -/
def applyResolveRecord (observations : List (Nat × PObs)) (canon : List (Nat × PCanCore))
    (observation_ids : List Nat) (canonical_id : Nat) : List (Nat × PCanCore) :=
  let base : PCanCore :=
    match lookupL canon canonical_id with
    | some c => c
    | none =>
      match observation_ids.head? >>= lookupL observations with
      | some first_obs => ⟨first_obs.name, first_obs.entity_type, [first_obs.name], [], []⟩
      | none => ⟨[], [], [], [], []⟩
  setKey canon canonical_id (observation_ids.foldl (applyObs observations) base)

/-- `ProvenanceTracker.create_canonical_entity`. A call with an empty id list
or an unknown observation id raises in Python before any usable state results;
it is modelled as a rejected call (`none`), and the replay theorem only
quantifies over valid calls, where no exception occurs. -/
def create_canonical_entity (st : PTState) (observation_ids : List Nat)
    (resolution_method : Str) : Option (Nat × PTState) :=
  if observation_ids.isEmpty ∨
      ¬ observation_ids.all (fun i => (lookupL st.observations i).isSome) then none
  else
    let existing := observation_ids.findSome? (find_matching_canonical st)
    let canonical_id := existing.getD st.fresh
    let resolution_id := if existing.isSome then st.fresh else st.fresh + 1
    let base : PCan :=
      match lookupL st.canonical canonical_id with
      | some c => c
      | none =>
        match observation_ids.head? >>= lookupL st.observations with
        | some first_obs =>
          ⟨⟨first_obs.name, first_obs.entity_type, [first_obs.name], [], []⟩, [], st.clock,
            st.clock⟩
        | none => ⟨⟨[], [], [], [], []⟩, [], st.clock, st.clock⟩
    let resolution : PRes :=
      { canonical_id := canonical_id
        observation_ids := observation_ids
        resolution_method := resolution_method
        resolution_confidence := if resolution_method = str "exact_match" then 95/100 else 8/10
        resolution_timestamp := st.clock }
    let core2 := observation_ids.foldl (applyObs st.observations) base.core
    some (canonical_id,
      { st with
        canonical := setKey st.canonical canonical_id
          ⟨core2, base.resolutions ++ [resolution_id], base.created_at, st.clock⟩
        resolutions := st.resolutions ++ [(resolution_id, resolution)]
        canonical_to_observations := setKey st.canonical_to_observations canonical_id
          (lookupD st.canonical_to_observations canonical_id [] ++ observation_ids)
        transformations := record_transformation st.transformations
          (.resolveT observation_ids canonical_id resolution_method st.clock
            resolution.resolution_confidence)
        fresh := (if existing.isSome then st.fresh + 1 else st.fresh + 2)
        clock := st.clock + 1 })

/-- Modelled from the spec: the repository records the transformation ledger
but ships no replay routine, so §4.5's replay ("discarding the
canonical-entity store and re-deriving it solely from the transformation log,
replaying `Extract` then `Resolve` records in timestamp order") is modelled
here: `Extract` records re-establish no canonical state, and each `Resolve`
record re-applies its recorded merge to the reconstructed store. The log is
traversed in order; appended records carry non-decreasing timestamps. -/
def replay_canonical (observations : List (Nat × PObs)) (log : List TRec) :
    List (Nat × PCanCore) :=
  log.foldl (fun canon r =>
    match r.payload with
    | .extract .. => canon
    | .resolveT fromState toState _ _ _ => applyResolveRecord observations canon fromState toState)
    []

/-- One external call to the tracker. -/
inductive POp where
  | record (entity : Entity) (source_doc source_cid : Str) (position : List (Str × Val))
      (method : Str)
  | resolveOp (observation_ids : List Nat) (resolution_method : Str)

/-- Execute one call (invalid resolution calls raise and change nothing). -/
def pstep (st : PTState) : POp → PTState
  | .record e d c pos m => (record_observation st e d c pos m).2
  | .resolveOp ids m =>
    match create_canonical_entity st ids m with
    | some r => r.2
    | none => st

/-- Execute a call sequence from a state. -/
def prun (st : PTState) (ops : List POp) : PTState := ops.foldl pstep st

/-- Validity of one call: resolution calls must reference recorded
observations (this is where Python would raise). -/
def opValid (st : PTState) : POp → Bool
  | .record .. => true
  | .resolveOp ids _ =>
    !ids.isEmpty && ids.all (fun i => (lookupL st.observations i).isSome)

/-- Validity of a call sequence, each call checked in its own state. -/
def opsValid : PTState → List POp → Bool
  | _, [] => true
  | st, op :: rest => opValid st op && opsValid (pstep st op) rest

/-- Projection of the live canonical store to its replay-relevant cores. -/
def coreMap (l : List (Nat × PCan)) : List (Nat × PCanCore) :=
  l.map (fun kv => (kv.1, kv.2.core))

/-! ### Proof-support definitions -/

/-- A word containing no whitespace. -/
abbrev SpaceFree (w : Str) : Prop := ∀ c ∈ w, isSpace c = false

/-- Canonically spaced strings: nonempty whitespace-free words joined by
single spaces (the image of the whitespace-collapse step). -/
def Canon (n : Str) : Prop :=
  ∃ ws : List Str, (∀ w ∈ ws, w ≠ [] ∧ SpaceFree w) ∧ n = joinSp ws

/-- The entity-type component of a canonical id, recovered from the digest
preimage `type ++ ":" ++ normalized` (the normalized part contains no `:`,
so the separator is the last `:`). -/
def tagTy (cid : CanId) : Str :=
  ((cid.tag.preimage.reverse.dropWhile (fun c => !(c == 58))).drop 1).reverse

/-- Well-formedness of a deduplicator state, maintained by `add_entity`:
every registry signature's type agrees with its id's type component (or is
empty while the id carries the `Unknown` default), the type index only files
ids under their id's type component (with the same `Unknown`/empty caveat),
and ids filed in the type index are present in the registry. -/
structure Wf (st : DState) : Prop where
  reg : ∀ kv ∈ st.entity_registry,
    kv.2.entity_type = tagTy kv.1 ∨ (kv.2.entity_type = [] ∧ tagTy kv.1 = str "Unknown")
  tyIdx : ∀ t cids, lookupL st.type_index t = some cids → ∀ cid ∈ cids,
    t = tagTy cid ∨ (t = [] ∧ tagTy cid = str "Unknown")
  tyIdxReg : ∀ t cids, lookupL st.type_index t = some cids → ∀ cid ∈ cids,
    (lookupL st.entity_registry cid).isSome

/-- The same deduplicator state with a different similarity threshold
(`EntityDeduplicator(similarity_threshold=t)` over identical stores). -/
noncomputable def withThr (st : DState) (t : ℝ) : DState :=
  { st with similarity_threshold := t }

/-- The amended alias invariant for one merged observation: its raw name is
empty, or recorded among the aliases, or normalizes to the canonical name. -/
def GoodAt (st : DState) (cid : CanId) (e : Entity) : Prop :=
  ∃ sig, lookupL st.entity_registry cid = some sig ∧
    (strGet e (str "name") [] = [] ∨ strGet e (str "name") [] ∈ sig.aliases ∨
     normalize_name (strGet e (str "name") []) = normalize_name sig.canonical_name)

/-- Every `Resolve` record of the log references only observation ids present
in the observation store (Python would have raised otherwise). -/
def ObsCover (observations : List (Nat × PObs)) (log : List TRec) : Prop :=
  ∀ r ∈ log, ∀ ids cid m ts c, r.payload = TPayload.resolveT ids cid m ts c →
    ∀ i ∈ ids, (lookupL observations i).isSome

/-! ### Concrete observations for the threshold-monotonicity analysis

Two thresholds are compared over one four-observation input. At the low
threshold the second observation fuzzy-merges into the first entity, whose
stored identifier and email then shadow the second observation's values
(property merging is first-write-wins). At the high threshold the second
observation mints its own entity, which the third and fourth observations
then match by identifier (score 1.0) resp. email (score 0.95). -/

def obsE1 : Entity :=
  [(str "@type", .s (str "T")), (str "name", .s (str "ee")),
   (str "identifier", .s (str "i1")), (str "email", .s (str "e1"))]

def obsE2 : Entity :=
  [(str "@type", .s (str "T")), (str "name", .s (str "e")),
   (str "identifier", .s (str "i2")), (str "email", .s (str "e2"))]

def obsE3 : Entity :=
  [(str "@type", .s (str "T")), (str "name", .s (str "rr")),
   (str "identifier", .s (str "i2"))]

def obsE4 : Entity :=
  [(str "@type", .s (str "T")), (str "name", .s (str "ss")),
   (str "email", .s (str "e2"))]

def cidEE : CanId := generate_canonical_id (str "T") (str "ee")

def cidE : CanId := generate_canonical_id (str "T") (str "e")

def cidRR : CanId := generate_canonical_id (str "T") (str "rr")

def cidSS : CanId := generate_canonical_id (str "T") (str "ss")

noncomputable section

/-- The deduplicator state after processing `obsE1` from a fresh registry
with threshold `t`. -/
def stEE (t : ℝ) : DState :=
  ⟨t,
   [(cidEE, ⟨str "ee", str "T", [],
     [(str "identifier", .s (str "i1")), (str "email", .s (str "e1"))], [], 1⟩)],
   [(str "ee", [cidEE])],
   [(str "T", [cidEE])]⟩

/-- The low-threshold state after `obsE2` fuzzy-merged into `cidEE`: the raw
name became an alias, but the identifier and email kept the first values. -/
def stT1b : DState :=
  ⟨1 / 100,
   [(cidEE, ⟨str "ee", str "T", [str "e"],
     [(str "identifier", .s (str "i1")), (str "email", .s (str "e1"))], [],
     (1 + calculate_similarity (str "e") (str "ee")) / 2⟩)],
   [(str "ee", [cidEE])],
   [(str "T", [cidEE])]⟩

/-- The low-threshold state after `obsE3` minted (its identifier matched
nothing, because `cidEE` kept the first observation's identifier). -/
def stT1c : DState :=
  ⟨1 / 100,
   [(cidEE, ⟨str "ee", str "T", [str "e"],
     [(str "identifier", .s (str "i1")), (str "email", .s (str "e1"))], [],
     (1 + calculate_similarity (str "e") (str "ee")) / 2⟩),
    (cidRR, ⟨str "rr", str "T", [], [(str "identifier", .s (str "i2"))], [], 1⟩)],
   [(str "ee", [cidEE]), (str "rr", [cidRR])],
   [(str "T", [cidEE, cidRR])]⟩

/-- The high-threshold state after `obsE2` minted its own entity. -/
def stT2b : DState :=
  ⟨19 / 20,
   [(cidEE, ⟨str "ee", str "T", [],
     [(str "identifier", .s (str "i1")), (str "email", .s (str "e1"))], [], 1⟩),
    (cidE, ⟨str "e", str "T", [],
     [(str "identifier", .s (str "i2")), (str "email", .s (str "e2"))], [], 1⟩)],
   [(str "ee", [cidEE]), (str "e", [cidE])],
   [(str "T", [cidEE, cidE])]⟩

/-- The high-threshold state after `obsE3` merged into `cidE` by identifier. -/
def stT2c : DState :=
  ⟨19 / 20,
   [(cidEE, ⟨str "ee", str "T", [],
     [(str "identifier", .s (str "i1")), (str "email", .s (str "e1"))], [], 1⟩),
    (cidE, ⟨str "e", str "T", [str "rr"],
     [(str "identifier", .s (str "i2")), (str "email", .s (str "e2"))], [],
     (1 + 1) / 2⟩)],
   [(str "ee", [cidEE]), (str "e", [cidE])],
   [(str "T", [cidEE, cidE])]⟩

end

/-! ## Theorems

### The normalizer (claim C3) -/

lemma pyLower_idem (c : Nat) : pyLower (pyLower c) = pyLower c := by
  by_cases h : 65 ≤ c ∧ c ≤ 90
  · have h2 : ¬ (65 ≤ c + 32 ∧ c + 32 ≤ 90) := by omega
    simp only [pyLower, if_pos h, if_neg h2]
  · simp only [pyLower, if_neg h]

lemma wordsAux_subset :
    ∀ (s cur : Str) (w : Str), w ∈ wordsAux s cur → ∀ c ∈ w, c ∈ s ∨ c ∈ cur := by
  intro s
  induction s with
  | nil =>
    intro cur w hw c hc
    by_cases h : cur = []
    · simp [wordsAux, h] at hw
    · simp only [wordsAux, if_neg h, List.mem_singleton] at hw
      subst hw; right; simpa using hc
  | cons a rest ih =>
    intro cur w hw c hc
    by_cases ha : isSpace a
    · by_cases h : cur = []
      · simp [wordsAux, ha, h] at hw
        rcases ih [] w hw c hc with h1 | h1
        · exact Or.inl (by simp [h1])
        · simp at h1
      · simp [wordsAux, ha, h] at hw
        rcases hw with rfl | hw
        · right; simpa using hc
        · rcases ih [] w hw c hc with h1 | h1
          · exact Or.inl (by simp [h1])
          · simp at h1
    · have ha2 : isSpace a = false := Bool.not_eq_true _ |>.mp ha
      simp only [wordsAux, ha2, Bool.false_eq_true, if_false] at hw
      rcases ih (a :: cur) w hw c hc with h1 | h1
      · exact Or.inl (by simp [h1])
      · rcases List.mem_cons.mp h1 with rfl | h2
        · exact Or.inl (by simp)
        · exact Or.inr h2

lemma wordsAux_good :
    ∀ (s cur : Str), SpaceFree cur → ∀ w ∈ wordsAux s cur, w ≠ [] ∧ SpaceFree w := by
  intro s
  induction s with
  | nil =>
    intro cur hcur w hw
    by_cases h : cur = []
    · simp [wordsAux, h] at hw
    · simp only [wordsAux, if_neg h, List.mem_singleton] at hw
      subst hw
      refine ⟨by simpa using h, fun c hc => hcur c (by simpa using hc)⟩
  | cons a rest ih =>
    intro cur hcur w hw
    by_cases ha : isSpace a
    · by_cases h : cur = []
      · simp [wordsAux, ha, h] at hw
        exact ih [] (by intro c hc; simp at hc) w hw
      · simp [wordsAux, ha, h] at hw
        rcases hw with rfl | hw
        · exact ⟨by simpa using h, fun c hc => hcur c (by simpa using hc)⟩
        · exact ih [] (by intro c hc; simp at hc) w hw
    · have ha2 : isSpace a = false := Bool.not_eq_true _ |>.mp ha
      simp only [wordsAux, ha2, Bool.false_eq_true, if_false] at hw
      refine ih (a :: cur) ?_ w hw
      intro c hc
      rcases List.mem_cons.mp hc with rfl | h2
      · simpa using ha
      · exact hcur c h2

lemma words_good (s : Str) : ∀ w ∈ words s, w ≠ [] ∧ SpaceFree w :=
  wordsAux_good s [] (by intro c hc; simp at hc)

lemma words_subset (s : Str) : ∀ w ∈ words s, ∀ c ∈ w, c ∈ s := by
  intro w hw c hc
  rcases wordsAux_subset s [] w hw c hc with h | h
  · exact h
  · simp at h

lemma wordsAux_append_word (w : Str) (hw : SpaceFree w) :
    ∀ (s cur : Str), wordsAux (w ++ s) cur = wordsAux s (w.reverse ++ cur) := by
  induction w with
  | nil => intro s cur; simp
  | cons c w ih =>
    intro s cur
    have hc : isSpace c = false := hw c (by simp)
    have hw2 : SpaceFree w := fun d hd => hw d (by simp [hd])
    simp only [List.cons_append, wordsAux, hc, Bool.false_eq_true, if_false, List.append_eq]
    rw [ih hw2 s (c :: cur)]
    simp

lemma joinSp_single (w : Str) : joinSp [w] = w := by simp [joinSp, List.intersperse]

lemma joinSp_cons (w : Str) (ws : List Str) (h : ws ≠ []) :
    joinSp (w :: ws) = w ++ 32 :: joinSp ws := by
  cases ws with
  | nil => cases h rfl
  | cons y ys => simp [joinSp, List.intersperse_cons_cons]

lemma words_joinSp : ∀ ws : List Str, (∀ w ∈ ws, w ≠ [] ∧ SpaceFree w) →
    words (joinSp ws) = ws := by
  intro ws
  induction ws with
  | nil => intro _; rfl
  | cons w ws ih =>
    intro h
    have hw := h w (by simp)
    cases ws with
    | nil =>
      rw [joinSp_single]
      unfold words
      rw [show w = w ++ ([] : Str) by simp, wordsAux_append_word w hw.2]
      simp [wordsAux, hw.1]
    | cons y ys =>
      rw [joinSp_cons _ _ (by simp)]
      unfold words
      rw [wordsAux_append_word w hw.2]
      have h32 : isSpace 32 = true := by decide
      simp only [wordsAux, h32, if_true, List.append_nil,
        if_neg (by simp [hw.1] : ¬ w.reverse = ([] : Str)), List.reverse_reverse]
      rw [show wordsAux (joinSp (y :: ys)) [] = words (joinSp (y :: ys)) from rfl,
        ih (fun v hv => h v (by simp [hv]))]

lemma joinSp_mem : ∀ (ws : List Str) (c : Nat), c ∈ joinSp ws →
    c = 32 ∨ ∃ w ∈ ws, c ∈ w := by
  intro ws
  induction ws with
  | nil => intro c hc; simp [joinSp] at hc
  | cons w ws ih =>
    intro c hc
    cases ws with
    | nil =>
      rw [joinSp_single] at hc
      exact Or.inr ⟨w, by simp, hc⟩
    | cons y ys =>
      rw [joinSp_cons _ _ (by simp)] at hc
      rcases List.mem_append.mp hc with h | h
      · exact Or.inr ⟨w, by simp, h⟩
      · rcases List.mem_cons.mp h with rfl | h2
        · exact Or.inl rfl
        · rcases ih c h2 with h3 | ⟨v, hv, hcv⟩
          · exact Or.inl h3
          · exact Or.inr ⟨v, by simp [hv], hcv⟩

lemma canon_collapse (s : Str) : Canon (joinSp (words s)) :=
  ⟨words s, words_good s, rfl⟩

lemma collapse_of_canon {n : Str} (h : Canon n) : joinSp (words n) = n := by
  obtain ⟨ws, hws, rfl⟩ := h
  rw [words_joinSp ws hws]

lemma dropWhile_canon {n : Str} (h : Canon n) : n.dropWhile isSpace = n := by
  obtain ⟨ws, hws, rfl⟩ := h
  cases ws with
  | nil => rfl
  | cons w ws =>
    have hw := hws w (by simp)
    obtain ⟨c, w2, rfl⟩ : ∃ c w2, w = c :: w2 := by
      cases w with
      | nil => cases hw.1 rfl
      | cons c w2 => exact ⟨c, w2, rfl⟩
    have hc : isSpace c = false := hw.2 c (by simp)
    cases ws with
    | nil => rw [joinSp_single]; simp [List.dropWhile_cons, hc]
    | cons y ys => rw [joinSp_cons _ _ (by simp)]; simp [List.dropWhile_cons, hc]

lemma joinSp_append_single (ws : List Str) (x : Str) (h : ws ≠ []) :
    joinSp (ws ++ [x]) = joinSp ws ++ 32 :: x := by
  induction ws with
  | nil => cases h rfl
  | cons w ws ih =>
    cases ws with
    | nil => rw [joinSp_single]; simp [joinSp_cons w [x] (by simp), joinSp_single]
    | cons y ys =>
      rw [List.cons_append, joinSp_cons _ _ (by simp), joinSp_cons _ _ (by simp),
        ih (by simp)]
      simp

lemma joinSp_reverse : ∀ ws : List Str,
    (joinSp ws).reverse = joinSp (ws.reverse.map List.reverse) := by
  intro ws
  induction ws with
  | nil => rfl
  | cons w ws ih =>
    cases ws with
    | nil => simp [joinSp_single]
    | cons y ys =>
      rw [joinSp_cons _ _ (by simp)]
      have h1 : ((w :: y :: ys).reverse.map List.reverse) =
          (y :: ys).reverse.map List.reverse ++ [w.reverse] := by simp
      rw [h1, joinSp_append_single _ _ (by simp)]
      rw [List.reverse_append, List.reverse_cons, ← ih]
      simp

lemma canon_reverse {n : Str} (h : Canon n) : Canon n.reverse := by
  obtain ⟨ws, hws, rfl⟩ := h
  refine ⟨ws.reverse.map List.reverse, ?_, joinSp_reverse ws⟩
  intro w hw
  simp only [List.mem_map, List.mem_reverse] at hw
  obtain ⟨v, hv, rfl⟩ := hw
  have hvg := hws v hv
  exact ⟨by simp [hvg.1], fun c hc => hvg.2 c (by simpa using hc)⟩

lemma trim_canon {n : Str} (h : Canon n) : trim n = n := by
  unfold trim
  rw [dropWhile_canon h, dropWhile_canon (canon_reverse h), List.reverse_reverse]

lemma suffix_of_append_right {l a b : Str} (h : l <:+ a ++ b) (hl : l.length ≤ b.length) :
    l <:+ b := by
  have h2 : l = List.drop (b.length - l.length) b := by
    conv_lhs => rw [List.suffix_iff_eq_drop.mp h]
    rw [List.length_append]
    have e : a.length + b.length - l.length = a.length + (b.length - l.length) := by omega
    rw [e, List.drop_append]
  exact List.suffix_iff_eq_drop.mpr h2

lemma suffix_of_suffix_le {l₁ l₂ m : Str} (h1 : l₁ <:+ m) (h2 : l₂ <:+ m)
    (h : l₁.length ≤ l₂.length) : l₁ <:+ l₂ := by
  obtain ⟨t, rfl⟩ := h2
  exact suffix_of_append_right h1 h

lemma strip_aligned : ∀ (ws : List Str) (sw : Str),
    (∀ w ∈ ws, w ≠ [] ∧ SpaceFree w) → sw ≠ [] → SpaceFree sw →
    (32 :: sw) <:+ joinSp ws →
    ∃ ws₀, ws = ws₀ ++ [sw] ∧
      (joinSp ws).take ((joinSp ws).length - (sw.length + 1)) = joinSp ws₀ := by
  intro ws
  induction ws with
  | nil =>
    intro sw _ _ _ hsuf
    have := hsuf.length_le
    simp [joinSp] at this
  | cons w ws ih =>
    intro sw hgood hsw hsf hsuf
    cases ws with
    | nil =>
      exfalso
      rw [joinSp_single] at hsuf
      have h32 : (32 : Nat) ∈ w := hsuf.subset (by simp)
      have := (hgood w (by simp)).2 32 h32
      simp [isSpace] at this
    | cons y ys =>
      rw [joinSp_cons _ _ (by simp)] at hsuf ⊢
      rcases lt_trichotomy sw.length (joinSp (y :: ys)).length with hlt | heq | hgt
      · -- the suffix lies strictly inside the tail words
        have hs2 : (32 :: sw) <:+ 32 :: joinSp (y :: ys) :=
          suffix_of_append_right hsuf (by simp; omega)
        have hs3 : (32 :: sw) <:+ joinSp (y :: ys) := by
          rcases List.suffix_cons_iff.mp hs2 with he | h3
          · exfalso
            have : sw.length = (joinSp (y :: ys)).length := by
              have := congrArg List.length he; simpa using this
            omega
          · exact h3
        obtain ⟨ws₀, hws0, htake⟩ :=
          ih sw (fun v hv => hgood v (by simp [hv])) hsw hsf hs3
        refine ⟨w :: ws₀, by simp [hws0], ?_⟩
        have hne : ws₀ ≠ [] := by
          rintro rfl
          simp only [List.nil_append] at hws0
          rw [hws0, joinSp_single] at hlt
          omega
        rw [joinSp_cons _ _ hne]
        have e2 : w ++ 32 :: joinSp (y :: ys) = (w ++ [32]) ++ joinSp (y :: ys) := by simp
        rw [e2]
        have e1 : ((w ++ [32]) ++ joinSp (y :: ys)).length - (sw.length + 1) =
            (w ++ [32]).length + ((joinSp (y :: ys)).length - (sw.length + 1)) := by
          simp only [List.length_append, List.length_cons, List.length_nil]
          omega
        rw [e1, List.take_append, htake]
        simp
      · -- the suffix is exactly the tail: it must be a single word
        have hs2 : (32 :: sw) <:+ 32 :: joinSp (y :: ys) :=
          suffix_of_append_right hsuf (by simp; omega)
        have he : 32 :: sw = 32 :: joinSp (y :: ys) :=
          hs2.eq_of_length (by simp [heq])
        have hsweq : sw = joinSp (y :: ys) := by simpa using he
        have hys : ys = [] := by
          cases ys with
          | nil => rfl
          | cons z zs =>
            exfalso
            rw [joinSp_cons _ _ (by simp)] at hsweq
            have h32 : (32 : Nat) ∈ sw := by rw [hsweq]; simp
            have := hsf 32 h32
            simp [isSpace] at this
        subst hys
        rw [joinSp_single] at hsweq ⊢
        refine ⟨[w], by simp [hsweq], ?_⟩
        rw [joinSp_single]
        have e1 : (w ++ 32 :: y).length - (sw.length + 1) = w.length := by
          simp [hsweq]
        rw [e1, List.take_left]
      · -- the suffix would have to reach past a separator into a word: impossible
        exfalso
        have hJ : (32 :: joinSp (y :: ys)) <:+ w ++ 32 :: joinSp (y :: ys) := by
          refine ⟨w, rfl⟩
        have hs2 : (32 :: joinSp (y :: ys)) <:+ 32 :: sw :=
          suffix_of_suffix_le hJ hsuf (by simp; omega)
        have hs3 : (32 :: joinSp (y :: ys)) <:+ sw := by
          rcases List.suffix_cons_iff.mp hs2 with he | h3
          · have := congrArg List.length he
            simp at this
            omega
          · exact h3
        have h32 : (32 : Nat) ∈ sw := hs3.subset (by simp)
        have := hsf 32 h32
        simp [isSpace] at this

lemma suffixes_shape : ∀ suf ∈ suffixes, ∃ sw : Str, suf = 32 :: sw ∧ sw ≠ [] ∧ SpaceFree sw := by
  intro suf hsuf
  simp only [suffixes, List.mem_cons, List.not_mem_nil, or_false] at hsuf
  rcases hsuf with rfl | rfl | rfl | rfl | rfl | rfl
  · exact ⟨str "inc", by decide, by decide, by decide⟩
  · exact ⟨str "llc", by decide, by decide, by decide⟩
  · exact ⟨str "corp", by decide, by decide, by decide⟩
  · exact ⟨str "corporation", by decide, by decide, by decide⟩
  · exact ⟨str "limited", by decide, by decide, by decide⟩
  · exact ⟨str "ltd", by decide, by decide, by decide⟩

lemma stripStep_canon {n suf : Str} (hsh : ∃ sw, suf = 32 :: sw ∧ sw ≠ [] ∧ SpaceFree sw)
    (h : Canon n) : Canon (if suf <:+ n then n.take (n.length - suf.length) else n) := by
  split
  · rename_i hsuf
    obtain ⟨sw, rfl, hsw, hsf⟩ := hsh
    obtain ⟨ws, hws, rfl⟩ := h
    obtain ⟨ws₀, hws0, htake⟩ := strip_aligned ws sw hws hsw hsf hsuf
    refine ⟨ws₀, fun v hv => hws v (by simp [hws0, hv]), ?_⟩
    simpa using htake
  · exact h

lemma stripSuffixes_canon {n : Str} (h : Canon n) : Canon (stripSuffixes n) := by
  have main : ∀ L : List Str, (∀ suf ∈ L, ∃ sw, suf = 32 :: sw ∧ sw ≠ [] ∧ SpaceFree sw) →
      ∀ m, Canon m →
      Canon (L.foldl (fun m suf => if suf <:+ m then m.take (m.length - suf.length) else m) m) := by
    intro L
    induction L with
    | nil => intro _ m hm; exact hm
    | cons s L ih =>
      intro hL m hm
      exact ih (fun suf hs => hL suf (by simp [hs])) _ (stripStep_canon (hL s (by simp)) hm)
  exact main suffixes suffixes_shape n h

lemma foldl_strip_id : ∀ (L : List Str) (n : Str), (∀ suf ∈ L, ¬ suf <:+ n) →
    L.foldl (fun m suf => if suf <:+ m then m.take (m.length - suf.length) else m) n = n := by
  intro L
  induction L with
  | nil => intro n _; rfl
  | cons s L ih =>
    intro n h
    simp only [List.foldl_cons, if_neg (h s (by simp))]
    exact ih n (fun suf hs => h suf (by simp [hs]))

lemma stripSuffixes_id {n : Str} (h : ∀ suf ∈ suffixes, ¬ suf <:+ n) : stripSuffixes n = n :=
  foldl_strip_id suffixes n h

lemma foldl_strip_le : ∀ (L : List Str) (n : Str),
    (L.foldl (fun m suf => if suf <:+ m then m.take (m.length - suf.length) else m) n).length ≤
      n.length := by
  intro L
  induction L with
  | nil => intro n; exact le_refl _
  | cons s L ih =>
    intro n
    refine (ih _).trans ?_
    show (if s <:+ n then n.take (n.length - s.length) else n).length ≤ n.length
    split
    · simp only [List.length_take]; omega
    · exact le_refl _

lemma foldl_strip_lt : ∀ (L : List Str) (n : Str), (∀ s ∈ L, s ≠ []) → (∃ s ∈ L, s <:+ n) →
    (L.foldl (fun m suf => if suf <:+ m then m.take (m.length - suf.length) else m) n).length <
      n.length := by
  intro L
  induction L with
  | nil => intro n _ h; simp at h
  | cons s L ih =>
    intro n hne hex
    by_cases hs : s <:+ n
    · simp only [List.foldl_cons, if_pos hs]
      refine lt_of_le_of_lt (foldl_strip_le L _) ?_
      have h1 : s.length ≤ n.length := hs.length_le
      have h2 : s.length ≠ 0 := by
        have := hne s (by simp)
        simpa [List.length_eq_zero] using this
      simp only [List.length_take]
      omega
    · simp only [List.foldl_cons, if_neg hs]
      obtain ⟨t, ht, htsuf⟩ := hex
      rcases List.mem_cons.mp ht with rfl | ht2
      · exact absurd htsuf hs
      · exact ih n (fun v hv => hne v (by simp [hv])) ⟨t, ht2, htsuf⟩

lemma foldl_strip_subset : ∀ (L : List Str) (n : Str),
    (L.foldl (fun m suf => if suf <:+ m then m.take (m.length - suf.length) else m) n) ⊆ n := by
  intro L
  induction L with
  | nil => intro n; exact fun _ h => h
  | cons s L ih =>
    intro n
    refine (ih _).trans ?_
    show (if s <:+ n then n.take (n.length - s.length) else n) ⊆ n
    split
    · exact List.take_subset _ _
    · exact fun _ h => h

lemma trim_subset (s : Str) : trim s ⊆ s := by
  intro c hc
  unfold trim at hc
  rw [List.mem_reverse] at hc
  have h1 := (List.dropWhile_sublist (l := (s.dropWhile isSpace).reverse) (p := isSpace)).subset hc
  rw [List.mem_reverse] at h1
  exact (List.dropWhile_sublist (l := s) (p := isSpace)).subset h1

lemma normalize_chars (s : Str) : ∀ c ∈ normalize_name s, keepChar c = true ∧ pyLower c = c := by
  intro c hc
  unfold normalize_name at hc
  have hc2 := trim_subset _ hc
  have hc3 := foldl_strip_subset suffixes _ hc2
  rcases joinSp_mem _ c hc3 with rfl | ⟨w, hw, hcw⟩
  · exact ⟨by decide, by decide⟩
  · have hc4 := words_subset _ w hw c hcw
    have hk : keepChar c = true := List.of_mem_filter hc4
    have hm : c ∈ s.map pyLower := List.mem_of_mem_filter hc4
    obtain ⟨a, _, rfl⟩ := List.mem_map.mp hm
    exact ⟨hk, pyLower_idem a⟩

lemma canon_normalize (s : Str) : Canon (normalize_name s) := by
  have hX : Canon (stripSuffixes (joinSp (words (List.filter keepChar (s.map pyLower))))) :=
    stripSuffixes_canon (canon_collapse _)
  unfold normalize_name
  rw [trim_canon hX]
  exact hX

lemma map_fix {l : Str} {f : Nat → Nat} (h : ∀ c ∈ l, f c = c) : l.map f = l := by
  induction l with
  | nil => rfl
  | cons a l ih =>
    simp only [List.map_cons, h a (by simp), ih (fun c hc => h c (by simp [hc]))]

lemma normalize_normalize (s : Str) :
    normalize_name (normalize_name s) = stripSuffixes (normalize_name s) := by
  have hch := normalize_chars s
  have hcanon := canon_normalize s
  show trim (stripSuffixes (joinSp (words
    (List.filter keepChar ((normalize_name s).map pyLower))))) = _
  rw [map_fix (fun c hc => (hch c hc).2),
    List.filter_eq_self.mpr (fun c hc => (hch c hc).1),
    collapse_of_canon hcanon, trim_canon (stripSuffixes_canon hcanon)]

/-- C3 (amended): `normalize_name` is total by construction (a function
`Str → Str`), but it is idempotent at `s` exactly when its output does not
still end in one of the six legal suffixes; a second application strips a
further suffix otherwise (claim C3 is refuted by `C3_counterexample`). -/
theorem C3_normalize_idempotent_iff (s : Str) :
    normalize_name (normalize_name s) = normalize_name s ↔
      ∀ suf ∈ suffixes, ¬ suf <:+ normalize_name s := by
  rw [normalize_normalize s]
  constructor
  · intro h suf hsuf hs
    have hlt := foldl_strip_lt suffixes (normalize_name s) (by decide) ⟨suf, hsuf, hs⟩
    rw [show suffixes.foldl
        (fun m suf => if suf <:+ m then m.take (m.length - suf.length) else m)
        (normalize_name s) = stripSuffixes (normalize_name s) from rfl, h] at hlt
    exact lt_irrefl _ hlt
  · exact stripSuffixes_id

/-- C3 witness: the amended equivalence at a concrete input whose normalized
form ends in a legal suffix, so a second application differs. -/
theorem C3_witness :
    ¬ (∀ suf ∈ suffixes, ¬ suf <:+ normalize_name (str "x corp corp")) ∧
      normalize_name (normalize_name (str "x corp corp")) ≠ normalize_name (str "x corp corp") := by
  constructor
  · decide
  · intro h
    exact (by decide : ¬ (∀ suf ∈ suffixes, ¬ suf <:+ normalize_name (str "x corp corp")))
      ((C3_normalize_idempotent_iff (str "x corp corp")).mp h)

/-- C3 counterexample: `normalize` is not idempotent — on `"x corp corp"` the
first pass strips one `" corp"` and the second pass strips another. -/
theorem C3_counterexample :
    normalize_name (normalize_name (str "x corp corp")) ≠ normalize_name (str "x corp corp") := by
  decide

lemma normalize_not_colon (s : Str) : (58 : Nat) ∉ normalize_name s := by
  intro h
  have := (normalize_chars s 58 h).1
  simp [keepChar, isWordChar, isSpace] at this

/-! ### Mint determinism (claim C4) and the empty-name collision (claim C10) -/

lemma lookupL_setKey_self {α β : Type} [DecidableEq α] (l : List (α × β)) (k : α) (v : β) :
    lookupL (setKey l k v) k = some v := by
  induction l with
  | nil => simp [setKey, lookupL]
  | cons kv rest ih =>
    by_cases h : kv.1 = k
    · simp [setKey, h, lookupL]
    · simp only [setKey, if_neg h, lookupL]
      rw [List.find?_cons_of_neg _ (by simpa using h)]
      simpa [lookupL] using ih

lemma lookupL_setKey_other {α β : Type} [DecidableEq α] (l : List (α × β)) (k k2 : α) (v : β)
    (h : k2 ≠ k) : lookupL (setKey l k v) k2 = lookupL l k2 := by
  have hk2 : ¬ k = k2 := fun he => h he.symm
  induction l with
  | nil =>
    simp only [setKey, lookupL, List.find?]
    rw [show (decide ((k, v).1 = k2)) = false by simpa using hk2]
  | cons kv rest ih =>
    obtain ⟨a, b⟩ := kv
    by_cases hk : a = k
    · subst hk
      simp only [setKey, lookupL, if_true]
      rw [List.find?_cons_of_neg _ (by simpa using hk2),
        List.find?_cons_of_neg _ (by simpa using hk2)]
    · simp only [setKey, lookupL]
      rw [if_neg hk]
      by_cases h2 : a = k2
      · rw [List.find?_cons_of_pos _ (by simpa using h2),
          List.find?_cons_of_pos _ (by simpa using h2)]
      · rw [List.find?_cons_of_neg _ (by simpa using h2),
          List.find?_cons_of_neg _ (by simpa using h2)]
        simpa [lookupL] using ih

lemma find_matches_empty_name (sim : Str → Str → ℝ) (st : DState) (e : Entity)
    (h : strGet e (str "name") [] = []) : find_matches sim st e = [] := by
  unfold find_matches
  simp [h]

lemma find_matches_init (sim : Str → Str → ℝ) (thr : ℝ) (e : Entity) :
    find_matches sim (init_state thr) e = [] := by
  by_cases h : strGet e (str "name") [] = []
  · exact find_matches_empty_name sim _ e h
  · simp only [find_matches, if_neg h]
    have he : exact_part (init_state thr) e = [] := by
      simp [exact_part, init_state, lookupD, lookupL]
    have hf : fuzzy_part sim (init_state thr) e = [] := by
      simp [fuzzy_part, init_state, lookupD, lookupL]
    have hp : prop_part (init_state thr) e = [] := by
      simp [prop_part, init_state]
    rw [he, hf, hp]
    rfl

lemma add_entity_of_matches_nil (sim : Str → Str → ℝ) (st : DState) (e : Entity)
    (h : find_matches sim st e = []) : add_entity sim st e = mint_entity st e := by
  unfold add_entity
  rw [h]

lemma add_entity_init (sim : Str → Str → ℝ) (thr : ℝ) (e : Entity) :
    add_entity sim (init_state thr) e = mint_entity (init_state thr) e :=
  add_entity_of_matches_nil sim _ e (find_matches_init sim thr e)

lemma mint_entity_parts (st : DState) (e : Entity) :
    mint_entity st e =
      (generate_canonical_id (strGet e (str "@type") (str "Unknown"))
          (strGet e (str "name") (str "unnamed")), false,
        { st with
          entity_registry := setKey st.entity_registry
            (generate_canonical_id (strGet e (str "@type") (str "Unknown"))
              (strGet e (str "name") (str "unnamed"))) (mint_signature e)
          name_index := setKey st.name_index (normalize_name (mint_signature e).canonical_name)
            (addElem (lookupD st.name_index
              (normalize_name (mint_signature e).canonical_name) [])
              (generate_canonical_id (strGet e (str "@type") (str "Unknown"))
                (strGet e (str "name") (str "unnamed"))))
          type_index := setKey st.type_index (mint_signature e).entity_type
            (addElem (lookupD st.type_index (mint_signature e).entity_type [])
              (generate_canonical_id (strGet e (str "@type") (str "Unknown"))
                (strGet e (str "name") (str "unnamed")))) }) := rfl

lemma add_entity_of_not_merged (sim : Str → Str → ℝ) (st : DState) (e : Entity)
    (h : (add_entity sim st e).2.1 = false) : add_entity sim st e = mint_entity st e := by
  unfold add_entity at h ⊢
  cases hm : find_matches sim st e with
  | nil => rfl
  | cons m rest =>
    obtain ⟨cid, conf⟩ := m
    rw [hm] at h
    by_cases hc : st.similarity_threshold ≤ conf
    · simp only [if_pos hc] at h
      simp at h
    · simp only [if_neg hc]

/-- C4: minting from a freshly-cleared registry is deterministic — `add_entity`
on a fresh deduplicator always mints, its canonical id is exactly
`generate_canonical_id(type, name)`, and that id is a pure function of the
entity type and the normalized name. -/
theorem C4_mint_deterministic (thr : ℝ) (e : Entity) (ty n1 n2 : Str)
    (h : normalize_name n1 = normalize_name n2) :
    (add_entity calculate_similarity (init_state thr) e).1 =
        generate_canonical_id (strGet e (str "@type") (str "Unknown"))
          (strGet e (str "name") (str "unnamed")) ∧
      (add_entity calculate_similarity (init_state thr) e).2.1 = false ∧
      generate_canonical_id ty n1 = generate_canonical_id ty n2 := by
  rw [add_entity_init]
  refine ⟨rfl, rfl, ?_⟩
  unfold generate_canonical_id
  rw [h]

/-- C4 witness: two spellings of the same organisation name yield the same
deterministic id when minted, by `C4_mint_deterministic`. -/
theorem C4_witness :
    (add_entity calculate_similarity (init_state (85/100))
        [(str "@type", .s (str "regen:Agent")), (str "name", .s (str "Regen Network Inc."))]).1 =
      generate_canonical_id (str "regen:Agent") (str "Regen Network Inc.") ∧
    generate_canonical_id (str "regen:Agent") (str "Regen Network Inc.") =
      generate_canonical_id (str "regen:Agent") (str "REGEN NETWORK") := by
  have h := C4_mint_deterministic (85/100)
    [(str "@type", .s (str "regen:Agent")), (str "name", .s (str "Regen Network Inc."))]
    (str "regen:Agent") (str "Regen Network Inc.") (str "REGEN NETWORK") (by decide)
  exact ⟨h.1, h.2.2⟩

/-- C10: two entities with empty names (and equal types) both mint — no
matching is attempted for empty names — they receive the identical canonical
id, and the second mint replaces the first registry entry, so afterwards the
registry holds only the second entity's signature (its properties and source
documents). -/
theorem C10_empty_name_overwrite (st : DState) (e1 e2 : Entity)
    (h1 : getKey e1 (str "name") = some (.s []))
    (h2 : getKey e2 (str "name") = some (.s []))
    (hty : strGet e1 (str "@type") (str "Unknown") = strGet e2 (str "@type") (str "Unknown")) :
    (add_entity calculate_similarity st e1).1 =
        (add_entity calculate_similarity
          (add_entity calculate_similarity st e1).2.2 e2).1 ∧
      (add_entity calculate_similarity st e1).2.1 = false ∧
      (add_entity calculate_similarity
        (add_entity calculate_similarity st e1).2.2 e2).2.1 = false ∧
      lookupL (add_entity calculate_similarity
          (add_entity calculate_similarity st e1).2.2 e2).2.2.entity_registry
        (add_entity calculate_similarity st e1).1 = some (mint_signature e2) := by
  have hn1 : strGet e1 (str "name") [] = [] := by unfold strGet; rw [h1]
  have hn2 : strGet e2 (str "name") [] = [] := by unfold strGet; rw [h2]
  have hu1 : strGet e1 (str "name") (str "unnamed") = [] := by unfold strGet; rw [h1]
  have hu2 : strGet e2 (str "name") (str "unnamed") = [] := by unfold strGet; rw [h2]
  have ha1 : add_entity calculate_similarity st e1 = mint_entity st e1 :=
    add_entity_of_matches_nil _ _ _ (find_matches_empty_name _ _ _ hn1)
  have ha2 : add_entity calculate_similarity (mint_entity st e1).2.2 e2 =
      mint_entity (mint_entity st e1).2.2 e2 :=
    add_entity_of_matches_nil _ _ _ (find_matches_empty_name _ _ _ hn2)
  rw [ha1, ha2]
  have hid : (mint_entity st e1).1 =
      generate_canonical_id (strGet e2 (str "@type") (str "Unknown"))
        (strGet e2 (str "name") (str "unnamed")) := by
    show generate_canonical_id (strGet e1 (str "@type") (str "Unknown"))
      (strGet e1 (str "name") (str "unnamed")) = _
    rw [hu1, hu2, hty]
  refine ⟨hid, rfl, rfl, ?_⟩
  show lookupL (setKey (mint_entity st e1).2.2.entity_registry
    (generate_canonical_id (strGet e2 (str "@type") (str "Unknown"))
      (strGet e2 (str "name") (str "unnamed"))) (mint_signature e2)) (mint_entity st e1).1 = _
  rw [hid]
  exact lookupL_setKey_self _ _ _

/-- C10 witness: the overwrite scenario at concrete inputs, by
`C10_empty_name_overwrite`. -/
theorem C10_witness :
    lookupL (add_entity calculate_similarity
        (add_entity calculate_similarity (init_state (85/100))
          [(str "name", .s []), (str "@type", .s (str "T")),
           (str "website", .s (str "w1"))]).2.2
        [(str "name", .s []), (str "@type", .s (str "T")),
         (str "email", .s (str "e2"))]).2.2.entity_registry
      (add_entity calculate_similarity (init_state (85/100))
        [(str "name", .s []), (str "@type", .s (str "T")),
         (str "website", .s (str "w1"))]).1 =
      some (mint_signature
        [(str "name", .s []), (str "@type", .s (str "T")),
         (str "email", .s (str "e2"))]) :=
  (C10_empty_name_overwrite (init_state (85/100))
    [(str "name", .s []), (str "@type", .s (str "T")), (str "website", .s (str "w1"))]
    [(str "name", .s []), (str "@type", .s (str "T")), (str "email", .s (str "e2"))]
    (by decide) (by decide) (by decide)).2.2.2

/-! ### Mint confidence (claim C8) -/

/-- C8 (amended): when `add_entity` mints, the new signature's aggregate
confidence is the dataclass default `1.0`, regardless of any confidence the
observation carries (the original claim is refuted by `C8_counterexample`). -/
theorem C8_mint_confidence_default (st : DState) (e : Entity)
    (h : (add_entity calculate_similarity st e).2.1 = false) :
    lookupL (add_entity calculate_similarity st e).2.2.entity_registry
        (add_entity calculate_similarity st e).1 = some (mint_signature e) ∧
      (mint_signature e).confidence = 1 := by
  rw [add_entity_of_not_merged _ _ _ h, mint_entity_parts]
  exact ⟨lookupL_setKey_self _ _ _, rfl⟩

/-- C8 witness: a mint at a concrete input, by `C8_mint_confidence_default`. -/
theorem C8_witness :
    lookupL (add_entity calculate_similarity (init_state (85/100))
        [(str "@type", .s (str "T")), (str "name", .s (str "gaia"))]).2.2.entity_registry
      (add_entity calculate_similarity (init_state (85/100))
        [(str "@type", .s (str "T")), (str "name", .s (str "gaia"))]).1 =
      some (mint_signature [(str "@type", .s (str "T")), (str "name", .s (str "gaia"))]) :=
  (C8_mint_confidence_default (init_state (85/100))
    [(str "@type", .s (str "T")), (str "name", .s (str "gaia"))]
    (by rw [add_entity_init]; rfl)).1

/-- C8 counterexample: an observation carrying confidence `0.5` mints a
canonical entity whose aggregate confidence is `1.0`, not `0.5`: the code
never passes the observation's confidence into `EntitySignature`. -/
theorem C8_counterexample :
    getKey [(str "@type", .s (str "T")), (str "name", .s (str "gaia")),
        (str "confidence", .n (1/2))] (str "confidence") = some (.n (1/2)) ∧
    lookupL (add_entity calculate_similarity (init_state (85/100))
        [(str "@type", .s (str "T")), (str "name", .s (str "gaia")),
         (str "confidence", .n (1/2))]).2.2.entity_registry
      (add_entity calculate_similarity (init_state (85/100))
        [(str "@type", .s (str "T")), (str "name", .s (str "gaia")),
         (str "confidence", .n (1/2))]).1 =
      some (mint_signature [(str "@type", .s (str "T")), (str "name", .s (str "gaia")),
        (str "confidence", .n (1/2))]) ∧
    (mint_signature [(str "@type", .s (str "T")), (str "name", .s (str "gaia")),
        (str "confidence", .n (1/2))]).confidence = 1 ∧ (1 : ℝ) ≠ 1/2 := by
  refine ⟨rfl, ?_, rfl, by norm_num⟩
  rw [add_entity_init, mint_entity_parts]
  exact lookupL_setKey_self _ _ _

/-! ### The relationship deduplicator (claim C7) -/

/-- C7: the synonym table is consulted with the lowercased predicate, but its
`evidenceFor` key is mixed-case and therefore unreachable — so
`("a","supports","b")` and `("a","evidenceFor","b")` do NOT deduplicate:
two relationships are stored, the second under the predicate `"evidencefor"`.
The spec describes the table's evident intent; the code is a slip. -/
theorem C7_evidenceFor_unreachable :
    normalize_relationship (str "a") (str "evidenceFor") (str "b") =
        (str "a", str "evidencefor", str "b") ∧
      (str "a", str "evidencefor", str "b") ≠ (str "a", str "supports", str "b") ∧
      add_relationship (add_relationship [] (str "a") (str "supports") (str "b") [])
          (str "a") (str "evidenceFor") (str "b") [] =
        [((str "a", str "supports", str "b"), []),
         ((str "a", str "evidencefor", str "b"), [])] := by
  refine ⟨by decide, by decide, by decide⟩

/-! ### The similarity engine (claim C5) -/

lemma df_le_two (d1 d2 : Str) (g : Str) : df d1 d2 g ≤ 2 := by
  unfold df
  split <;> split <;> omega

lemma df_pos_left (d1 d2 : Str) (g : Str) (h : g ∈ analyze d1) : 1 ≤ df d1 d2 g := by
  unfold df
  rw [if_pos h]
  omega

lemma idf_ge_one (d1 d2 : Str) (g : Str) : 1 ≤ idf d1 d2 g := by
  unfold idf
  have h1 : (1 : ℝ) ≤ 3 / (1 + (df d1 d2 g : ℝ)) := by
    rw [le_div_iff₀ (by positivity)]
    have := df_le_two d1 d2 g
    have hc : (df d1 d2 g : ℝ) ≤ 2 := by exact_mod_cast this
    linarith
  have := Real.log_nonneg h1
  linarith

lemma idf_le (d1 d2 : Str) (g : Str) (h : 1 ≤ df d1 d2 g) : idf d1 d2 g ≤ 3 / 2 := by
  unfold idf
  have hpos : (0 : ℝ) < 3 / (1 + (df d1 d2 g : ℝ)) := by positivity
  have h1 := Real.log_le_sub_one_of_pos hpos
  have hc : (1 : ℝ) ≤ (df d1 d2 g : ℝ) := by exact_mod_cast h
  have h2 : (3 : ℝ) / (1 + (df d1 d2 g : ℝ)) ≤ 3 / 2 := by
    gcongr
    linarith
  linarith

lemma wA_nonneg (d1 d2 : Str) (g : Str) : 0 ≤ wA d1 d2 g :=
  mul_nonneg (by positivity) (le_trans zero_le_one (idf_ge_one d1 d2 g))

lemma wB_nonneg (d1 d2 : Str) (g : Str) : 0 ≤ wB d1 d2 g :=
  mul_nonneg (by positivity) (le_trans zero_le_one (idf_ge_one d1 d2 g))

lemma tfidf_cosine_nonneg (d1 d2 : Str) : 0 ≤ tfidf_cosine d1 d2 := by
  unfold tfidf_cosine
  apply div_nonneg
  · exact Finset.sum_nonneg (fun g _ => mul_nonneg (wA_nonneg d1 d2 g) (wB_nonneg d1 d2 g))
  · exact mul_nonneg (Real.sqrt_nonneg _) (Real.sqrt_nonneg _)

lemma tfidf_cosine_le_one (d1 d2 : Str) : tfidf_cosine d1 d2 ≤ 1 := by
  unfold tfidf_cosine
  set V := (vocabL d1 d2).toFinset
  set D := Real.sqrt (∑ g ∈ V, (wA d1 d2 g) ^ 2) * Real.sqrt (∑ g ∈ V, (wB d1 d2 g) ^ 2)
    with hD
  have hD0 : 0 ≤ D := mul_nonneg (Real.sqrt_nonneg _) (Real.sqrt_nonneg _)
  rcases hD0.eq_or_lt with h | h
  · rw [← h, div_zero]
    norm_num
  · rw [div_le_one h]
    simpa [hD] using Real.sum_mul_le_sqrt_mul_sqrt V (wA d1 d2) (wB d1 d2)

lemma vocab_toFinset_comm (d1 d2 : Str) :
    (vocabL d1 d2).toFinset = (vocabL d2 d1).toFinset := by
  ext g
  simp [vocabL, Or.comm]

lemma df_comm (d1 d2 : Str) (g : Str) : df d1 d2 g = df d2 d1 g := by
  unfold df
  omega

lemma idf_comm (d1 d2 : Str) (g : Str) : idf d1 d2 g = idf d2 d1 g := by
  unfold idf
  rw [df_comm]

lemma wA_symm (d1 d2 : Str) (g : Str) : wA d1 d2 g = wB d2 d1 g := by
  unfold wA wB
  rw [idf_comm]

lemma wB_symm (d1 d2 : Str) (g : Str) : wB d1 d2 g = wA d2 d1 g := by
  unfold wA wB
  rw [idf_comm]

lemma tfidf_cosine_comm (d1 d2 : Str) : tfidf_cosine d1 d2 = tfidf_cosine d2 d1 := by
  unfold tfidf_cosine
  rw [vocab_toFinset_comm]
  rw [show ∑ g ∈ (vocabL d2 d1).toFinset, wA d1 d2 g * wB d1 d2 g =
      ∑ g ∈ (vocabL d2 d1).toFinset, wA d2 d1 g * wB d2 d1 g from
    Finset.sum_congr rfl (fun g _ => by
      rw [wA_symm d1 d2 g, wB_symm d1 d2 g]; exact mul_comm _ _)]
  rw [show ∑ g ∈ (vocabL d2 d1).toFinset, (wA d1 d2 g) ^ 2 =
      ∑ g ∈ (vocabL d2 d1).toFinset, (wB d2 d1 g) ^ 2 from
    Finset.sum_congr rfl (fun g _ => by rw [wA_symm d1 d2 g])]
  rw [show ∑ g ∈ (vocabL d2 d1).toFinset, (wB d1 d2 g) ^ 2 =
      ∑ g ∈ (vocabL d2 d1).toFinset, (wA d2 d1 g) ^ 2 from
    Finset.sum_congr rfl (fun g _ => by rw [wB_symm d1 d2 g])]
  rw [mul_comm]

lemma charSet_comm_inter (a b : Str) : charSet a ∩ charSet b = charSet b ∩ charSet a :=
  Finset.inter_comm _ _

lemma fallback_overlap_comm (a b : Str) : fallback_overlap a b = fallback_overlap b a := by
  unfold fallback_overlap
  rw [Finset.inter_comm, Finset.union_comm]
  by_cases h1 : charSet a = ∅ <;> by_cases h2 : charSet b = ∅ <;>
    simp [h1, h2]

lemma fallback_overlap_nonneg (a b : Str) : 0 ≤ fallback_overlap a b := by
  unfold fallback_overlap
  split
  · exact le_refl 0
  · positivity

lemma fallback_overlap_le_one (a b : Str) : fallback_overlap a b ≤ 1 := by
  unfold fallback_overlap
  split
  · norm_num
  · rename_i h
    push_neg at h
    have hcard : (charSet a ∩ charSet b).card ≤ (charSet a ∪ charSet b).card :=
      Finset.card_le_card Finset.inter_subset_union
    have hpos : 0 < (charSet a ∪ charSet b).card := by
      rcases Finset.nonempty_of_ne_empty h.1 with ⟨x, hx⟩
      exact Finset.card_pos.mpr ⟨x, Finset.mem_union_left _ hx⟩
    rw [div_le_one (by exact_mod_cast hpos)]
    exact_mod_cast hcard

lemma vocabL_comm_nil (d1 d2 : Str) : vocabL d1 d2 = [] ↔ vocabL d2 d1 = [] := by
  unfold vocabL
  simp [List.dedup_eq_nil, and_comm]

set_option maxHeartbeats 1000000 in
lemma calcSim_comm (a b : Str) : calculate_similarity a b = calculate_similarity b a := by
  unfold calculate_similarity
  by_cases h1 : a = [] ∨ b = []
  · rw [if_pos h1, if_pos (show b = [] ∨ a = [] from Or.symm h1)]
  · rw [if_neg h1, if_neg (show ¬ (b = [] ∨ a = []) from fun h => h1 (Or.symm h))]
    by_cases h2 : normalize_name a = normalize_name b
    · rw [if_pos h2, if_pos (show normalize_name b = normalize_name a from h2.symm)]
    · rw [if_neg h2,
        if_neg (show ¬ normalize_name b = normalize_name a from fun h => h2 h.symm)]
      by_cases h3 : vocabL a b = []
      · rw [if_pos h3, if_pos (show vocabL b a = [] from (vocabL_comm_nil a b).mp h3),
          fallback_overlap_comm]
      · rw [if_neg h3,
          if_neg (show ¬ vocabL b a = [] from fun h => h3 ((vocabL_comm_nil b a).mp h)),
          tfidf_cosine_comm]

lemma calcSim_nonneg (a b : Str) : 0 ≤ calculate_similarity a b := by
  unfold calculate_similarity
  split
  · exact le_refl 0
  · split
    · norm_num
    · split
      · exact fallback_overlap_nonneg a b
      · exact tfidf_cosine_nonneg a b

lemma calcSim_le_one (a b : Str) : calculate_similarity a b ≤ 1 := by
  unfold calculate_similarity
  split
  · norm_num
  · split
    · norm_num
    · split
      · exact fallback_overlap_le_one a b
      · exact tfidf_cosine_le_one a b

lemma calcSim_of_empty (a b : Str) (h : a = [] ∨ b = []) : calculate_similarity a b = 0 := by
  unfold calculate_similarity
  rw [if_pos h]

lemma calcSim_of_norm_eq (a b : Str) (ha : a ≠ []) (hb : b ≠ [])
    (h : normalize_name a = normalize_name b) : calculate_similarity a b = 1 := by
  unfold calculate_similarity
  rw [if_neg (by simp [ha, hb]), if_pos h]

/-- C5 (amended): `calculate_similarity` is symmetric, bounded in `[0,1]`,
equal to `1.0` on equal non-empty inputs, equal to `0.0` when either input is
empty, and equal to `1.0` whenever the normalized names agree AND both inputs
are non-empty — the emptiness check precedes the normalized-equality check, so
the unconditional version of the last clause is refuted by
`C5_counterexample`. -/
theorem C5_similarity_properties (a b : Str) :
    calculate_similarity a b = calculate_similarity b a ∧
      0 ≤ calculate_similarity a b ∧ calculate_similarity a b ≤ 1 ∧
      (a ≠ [] → calculate_similarity a a = 1) ∧
      (a = [] ∨ b = [] → calculate_similarity a b = 0) ∧
      (a ≠ [] → b ≠ [] → normalize_name a = normalize_name b →
        calculate_similarity a b = 1) :=
  ⟨calcSim_comm a b, calcSim_nonneg a b, calcSim_le_one a b,
    fun ha => calcSim_of_norm_eq a a ha ha rfl,
    calcSim_of_empty a b, calcSim_of_norm_eq a b⟩

/-- C5 witness: the amended properties at concrete inputs, by
`C5_similarity_properties`. -/
theorem C5_witness :
    calculate_similarity (str "gaia") (str "gaia") = 1 ∧
      calculate_similarity (str "gaia") [] = 0 ∧
      calculate_similarity (str "Regen Network Inc.") (str "REGEN NETWORK") = 1 := by
  refine ⟨(C5_similarity_properties (str "gaia") (str "gaia")).2.2.2.1 (by decide),
    (C5_similarity_properties (str "gaia") []).2.2.2.2.1 (Or.inr rfl),
    (C5_similarity_properties (str "Regen Network Inc.") (str "REGEN NETWORK")).2.2.2.2.2
      (by decide) (by decide) (by decide)⟩

/-- C5 counterexample: on two empty strings the normalized names agree but the
similarity is `0.0`, not `1.0` — the `"return 0.0 on empty input"` branch
fires first, so the claimed unconditional `normalize`-equality clause is
false. -/
theorem C5_counterexample :
    normalize_name [] = normalize_name [] ∧
      calculate_similarity [] [] = 0 ∧ (0 : ℝ) ≠ 1 := by
  refine ⟨rfl, calcSim_of_empty [] [] (Or.inl rfl), by norm_num⟩

/-! ### The matching engine: membership and well-formedness facts -/

lemma mem_addElem_self {α : Type} [DecidableEq α] (l : List α) (x : α) : x ∈ addElem l x := by
  unfold addElem
  split
  · assumption
  · simp

lemma mem_addElem_mono {α : Type} [DecidableEq α] (l : List α) (x y : α) (h : x ∈ l) :
    x ∈ addElem l y := by
  unfold addElem
  split
  · exact h
  · simp [h]

lemma mem_addElem {α : Type} [DecidableEq α] (l : List α) (x y : α) (h : x ∈ addElem l y) :
    x = y ∨ x ∈ l := by
  unfold addElem at h
  split at h
  · exact Or.inr h
  · rcases List.mem_append.mp h with h2 | h2
    · exact Or.inr h2
    · exact Or.inl (by simpa using h2)

lemma mem_setKey {α β : Type} [DecidableEq α] (l : List (α × β)) (k : α) (v : β)
    (kv : α × β) (h : kv ∈ setKey l k v) : kv = (k, v) ∨ kv ∈ l := by
  induction l with
  | nil => exact Or.inl (by simp [setKey] at h; exact h)
  | cons a rest ih =>
    unfold setKey at h
    split at h
    · rcases List.mem_cons.mp h with h2 | h2
      · exact Or.inl h2
      · exact Or.inr (by simp [h2])
    · rcases List.mem_cons.mp h with h2 | h2
      · exact Or.inr (by simp [h2])
      · rcases ih h2 with h3 | h3
        · exact Or.inl h3
        · exact Or.inr (by simp [h3])

lemma lookupL_mem {α β : Type} [DecidableEq α] (l : List (α × β)) (k : α) (v : β)
    (h : lookupL l k = some v) : (k, v) ∈ l := by
  unfold lookupL at h
  cases hf : l.find? (fun kv => decide (kv.1 = k)) with
  | none => rw [hf] at h; simp at h
  | some kv =>
    obtain ⟨k1, v1⟩ := kv
    rw [hf] at h
    have hm := List.mem_of_find?_eq_some hf
    have hp := List.find?_some hf
    simp only [decide_eq_true_eq] at hp
    have h2 : v1 = v := by simpa using h
    have h3 : k1 = k := hp
    subst h2
    subst h3
    exact hm

lemma lookupL_isSome_of_mem {α β : Type} [DecidableEq α] (l : List (α × β)) (kv : α × β)
    (h : kv ∈ l) : (lookupL l kv.1).isSome := by
  unfold lookupL
  cases hf : l.find? (fun x => decide (x.1 = kv.1)) with
  | some x => simp
  | none =>
    exfalso
    have := List.find?_eq_none.mp hf kv h
    simp at this

lemma lookupL_setKey_isSome {α β : Type} [DecidableEq α] (l : List (α × β)) (k k2 : α) (v : β)
    (h : (lookupL l k2).isSome) : (lookupL (setKey l k v) k2).isSome := by
  by_cases he : k2 = k
  · subst he
    rw [lookupL_setKey_self]
    simp
  · rw [lookupL_setKey_other _ _ _ _ he]
    exact h

lemma mem_insertDesc (x y : CanId × ℝ) (l : List (CanId × ℝ)) (h : x ∈ insertDesc y l) :
    x = y ∨ x ∈ l := by
  induction l with
  | nil => exact Or.inl (by simp [insertDesc] at h; exact h)
  | cons z zs ih =>
    unfold insertDesc at h
    split at h
    · rcases List.mem_cons.mp h with h2 | h2
      · exact Or.inl h2
      · exact Or.inr h2
    · rcases List.mem_cons.mp h with h2 | h2
      · exact Or.inr (by simp [h2])
      · rcases ih h2 with h3 | h3
        · exact Or.inl h3
        · exact Or.inr (by simp [h3])

lemma mem_sortDesc (x : CanId × ℝ) (l : List (CanId × ℝ)) (h : x ∈ sortDesc l) : x ∈ l := by
  unfold sortDesc at h
  induction l with
  | nil => simp at h
  | cons a rest ih =>
    simp only [List.foldr_cons] at h
    rcases mem_insertDesc _ _ _ h with h2 | h2
    · simp [h2]
    · exact List.mem_cons_of_mem _ (ih h2)

lemma mem_dedupMatches (l : List (CanId × ℝ)) (seen : List CanId) (x : CanId × ℝ)
    (h : x ∈ dedupMatches l seen) : x ∈ l := by
  induction l generalizing seen with
  | nil => simp [dedupMatches] at h
  | cons m rest ih =>
    unfold dedupMatches at h
    split at h
    · exact List.mem_cons_of_mem _ (ih _ h)
    · rcases List.mem_cons.mp h with h2 | h2
      · simp [h2]
      · exact List.mem_cons_of_mem _ (ih _ h2)

lemma mem_propCandidates (e : Entity) (kv : CanId × EntitySignature) (x : CanId × ℝ)
    (h : x ∈ propCandidates e kv) : x.1 = kv.1 := by
  unfold propCandidates at h
  have key : ∀ (k : Str) (sc : ℝ), x ∈ (match getKey e k with
      | some v =>
        if v.truthy = true ∧ lookupL kv.2.properties k = some v then [(kv.1, sc)] else []
      | none => ([] : List (CanId × ℝ))) → x.1 = kv.1 := by
    intro k sc hx
    revert hx
    cases getKey e k with
    | none => intro hx; simp at hx
    | some v =>
      show x ∈ (if v.truthy = true ∧ lookupL kv.2.properties k = some v
          then [(kv.1, sc)] else []) → x.1 = kv.1
      split
      · intro hx
        have hx2 : x = (kv.1, sc) := by simpa using hx
        rw [hx2]
      · intro hx; simp at hx
  rcases List.mem_append.mp h with h2 | h2
  · rcases List.mem_append.mp h2 with h3 | h3
    · exact key _ _ h3
    · exact key _ _ h3
  · exact key _ _ h2

/-- Every candidate produced by `find_matches` either has a registry entry of
the observation's (default-empty) type, or is filed in the type index under
that type. -/
lemma find_matches_sources (sim : Str → Str → ℝ) (st : DState) (e : Entity)
    (cid : CanId) (s : ℝ) (h : (cid, s) ∈ find_matches sim st e) :
    (∃ sig, (cid, sig) ∈ st.entity_registry ∧
        sig.entity_type = strGet e (str "@type") []) ∨
      (∃ cids, lookupL st.type_index (strGet e (str "@type") []) = some cids ∧ cid ∈ cids) := by
  unfold find_matches at h
  split at h
  · simp at h
  · have h2 := mem_dedupMatches _ _ _ h
    have h3 := mem_sortDesc _ _ h2
    rcases List.mem_append.mp h3 with h4 | h4
    · rcases List.mem_append.mp h4 with h5 | h5
      · -- exact strategy
        left
        unfold exact_part at h5
        obtain ⟨cid0, _, hf⟩ := List.mem_filterMap.mp h5
        revert hf
        cases hl : lookupL st.entity_registry cid0 with
        | none => intro hf; simp at hf
        | some sig =>
          intro hf
          have h6 : sig.entity_type = strGet e (str "@type") [] ∧ cid0 = cid ∧ (1 : ℝ) = s := by
            simpa using hf
          obtain ⟨hty, rfl, _⟩ := h6
          exact ⟨sig, lookupL_mem _ _ _ hl, hty⟩
      · -- fuzzy strategy
        right
        unfold fuzzy_part at h5
        obtain ⟨cid0, hcid0, hmem⟩ := List.mem_flatMap.mp h5
        have hone : cid0 = cid := by
          revert hmem
          cases hl : lookupL st.entity_registry cid0 with
          | none => intro hmem; simp at hmem
          | some sig =>
            show (cid, s) ∈ (match scanNames sim st.similarity_threshold
                (strGet e (str "name") []) (sig.canonical_name :: sig.aliases) with
              | some sc => [(cid0, sc)]
              | none => []) → cid0 = cid
            cases scanNames sim st.similarity_threshold
                (strGet e (str "name") []) (sig.canonical_name :: sig.aliases) with
            | none => intro hmem; simp at hmem
            | some sc =>
              intro hmem
              have : cid = cid0 ∧ s = sc := by simpa using hmem
              exact this.1.symm
        subst hone
        cases hL : lookupL st.type_index (strGet e (str "@type") []) with
        | none =>
          exfalso
          rw [show lookupD st.type_index (strGet e (str "@type") []) [] = [] by
            simp [lookupD, hL]] at hcid0
          simp at hcid0
        | some cids =>
          refine ⟨cids, rfl, ?_⟩
          rwa [show lookupD st.type_index (strGet e (str "@type") []) [] = cids by
            simp [lookupD, hL]] at hcid0
    · -- property strategy
      left
      unfold prop_part at h4
      split at h4
      · obtain ⟨kv, hkv, hmem⟩ := List.mem_flatMap.mp h4
        split at hmem
        · rename_i hty
          have hx := mem_propCandidates _ _ _ hmem
          simp only at hx
          subst hx
          exact ⟨kv.2, by simpa using hkv, hty⟩
        · simp at hmem
      · simp at h4

/-! ### Entity types never mix (claim C6) -/

lemma dropWhile_append_of_all {p : Nat → Bool} : ∀ (l1 l2 : Str), (∀ c ∈ l1, p c = true) →
    (l1 ++ l2).dropWhile p = l2.dropWhile p := by
  intro l1
  induction l1 with
  | nil => intro l2 _; rfl
  | cons c l1 ih =>
    intro l2 h
    rw [List.cons_append, List.dropWhile_cons, if_pos (h c (by simp))]
    exact ih l2 (fun d hd => h d (by simp [hd]))

lemma tagTy_genId (ty n : Str) : tagTy (generate_canonical_id ty n) = ty := by
  unfold tagTy generate_canonical_id
  simp only
  rw [show (ty ++ 58 :: normalize_name n).reverse =
      (normalize_name n).reverse ++ (58 :: ty.reverse) by simp]
  rw [dropWhile_append_of_all _ _ (fun c hc => by
    have : c ≠ 58 := by
      intro hc58
      subst hc58
      exact normalize_not_colon n (List.mem_reverse.mp hc)
    simpa using this)]
  rw [List.dropWhile_cons, if_neg (by simp)]
  simp

lemma strGet_default_agree (e : Entity) (k d : Str) (h : strGet e k [] ≠ []) :
    strGet e k d = strGet e k [] := by
  unfold strGet at h ⊢
  revert h
  cases getKey e k with
  | none => intro h; simp at h
  | some v =>
    cases v with
    | s v2 => intro _; rfl
    | n v2 => intro h; simp at h
    | l v2 => intro h; simp at h

lemma wf_init (thr : ℝ) : Wf (init_state thr) := by
  constructor
  · intro kv hkv
    simp [init_state] at hkv
  · intro t cids hL
    simp [init_state, lookupL] at hL
  · intro t cids hL
    simp [init_state, lookupL] at hL

lemma mint_signature_type (e : Entity) :
    (mint_signature e).entity_type = strGet e (str "@type") [] := rfl

lemma mint_type_rel (e : Entity) :
    strGet e (str "@type") [] = strGet e (str "@type") (str "Unknown") ∨
      (strGet e (str "@type") [] = [] ∧
        strGet e (str "@type") (str "Unknown") = str "Unknown") := by
  unfold strGet
  cases getKey e (str "@type") with
  | none => exact Or.inr ⟨rfl, rfl⟩
  | some v =>
    cases v with
    | s v2 => exact Or.inl rfl
    | n v2 => exact Or.inr ⟨rfl, rfl⟩
    | l v2 => exact Or.inr ⟨rfl, rfl⟩

lemma wf_mint (st : DState) (e : Entity) (h : Wf st) : Wf (mint_entity st e).2.2 := by
  rw [mint_entity_parts]
  have hrel : (mint_signature e).entity_type =
        tagTy (generate_canonical_id (strGet e (str "@type") (str "Unknown"))
          (strGet e (str "name") (str "unnamed"))) ∨
      ((mint_signature e).entity_type = [] ∧
        tagTy (generate_canonical_id (strGet e (str "@type") (str "Unknown"))
          (strGet e (str "name") (str "unnamed"))) = str "Unknown") := by
    rw [tagTy_genId, mint_signature_type]
    exact mint_type_rel e
  constructor
  · intro kv hkv
    rcases mem_setKey _ _ _ _ hkv with rfl | hkv2
    · exact hrel
    · exact h.reg kv hkv2
  · intro t cids hL cid2 hc2
    by_cases hteq : t = (mint_signature e).entity_type
    · subst hteq
      rw [lookupL_setKey_self] at hL
      have hcids : cids = addElem
          (lookupD st.type_index (mint_signature e).entity_type []) (generate_canonical_id
            (strGet e (str "@type") (str "Unknown")) (strGet e (str "name") (str "unnamed"))) := by
        exact (Option.some_inj.mp hL).symm
      subst hcids
      rcases mem_addElem _ _ _ hc2 with rfl | hc3
      · rcases hrel with h1 | h1
        · exact Or.inl h1
        · exact Or.inr ⟨h1.1, h1.2⟩
      · cases hLold : lookupL st.type_index (mint_signature e).entity_type with
        | none =>
          exfalso
          rw [show lookupD st.type_index (mint_signature e).entity_type [] = [] by
            simp [lookupD, hLold]] at hc3
          simp at hc3
        | some old =>
          refine h.tyIdx _ old hLold cid2 ?_
          rwa [show lookupD st.type_index (mint_signature e).entity_type [] = old by
            simp [lookupD, hLold]] at hc3
    · rw [lookupL_setKey_other _ _ _ _ hteq] at hL
      exact h.tyIdx t cids hL cid2 hc2
  · intro t cids hL cid2 hc2
    by_cases hteq : t = (mint_signature e).entity_type
    · subst hteq
      rw [lookupL_setKey_self] at hL
      have hcids : cids = addElem
          (lookupD st.type_index (mint_signature e).entity_type []) (generate_canonical_id
            (strGet e (str "@type") (str "Unknown")) (strGet e (str "name") (str "unnamed"))) :=
        (Option.some_inj.mp hL).symm
      subst hcids
      rcases mem_addElem _ _ _ hc2 with rfl | hc3
      · rw [lookupL_setKey_self]
        simp
      · apply lookupL_setKey_isSome
        cases hLold : lookupL st.type_index (mint_signature e).entity_type with
        | none =>
          exfalso
          rw [show lookupD st.type_index (mint_signature e).entity_type [] = [] by
            simp [lookupD, hLold]] at hc3
          simp at hc3
        | some old =>
          refine h.tyIdxReg _ old hLold cid2 ?_
          rwa [show lookupD st.type_index (mint_signature e).entity_type [] = old by
            simp [lookupD, hLold]] at hc3
    · rw [lookupL_setKey_other _ _ _ _ hteq] at hL
      apply lookupL_setKey_isSome
      exact h.tyIdxReg t cids hL cid2 hc2

lemma wf_merge (st : DState) (cid : CanId) (e : Entity) (conf : ℝ) (h : Wf st) :
    Wf (merge_entities st cid e conf) := by
  unfold merge_entities
  cases hl : lookupL st.entity_registry cid with
  | none => exact h
  | some signature =>
    constructor
    · intro kv hkv
      rcases mem_setKey _ _ _ _ hkv with rfl | hkv2
      · have hr := h.reg (cid, signature) (lookupL_mem _ _ _ hl)
        simpa using hr
      · exact h.reg kv hkv2
    · intro t cids hL cid2 hc2
      exact h.tyIdx t cids hL cid2 hc2
    · intro t cids hL cid2 hc2
      exact lookupL_setKey_isSome _ _ _ _ (h.tyIdxReg t cids hL cid2 hc2)

lemma add_entity_cases (sim : Str → Str → ℝ) (st : DState) (e : Entity) :
    (∃ cid conf rest, find_matches sim st e = (cid, conf) :: rest ∧
        st.similarity_threshold ≤ conf ∧
        add_entity sim st e = (cid, true, merge_entities st cid e conf)) ∨
      add_entity sim st e = mint_entity st e := by
  unfold add_entity
  cases hm : find_matches sim st e with
  | nil => exact Or.inr rfl
  | cons m rest =>
    obtain ⟨cid, conf⟩ := m
    by_cases hc : st.similarity_threshold ≤ conf
    · exact Or.inl ⟨cid, conf, rest, rfl, hc, by simp only [if_pos hc]⟩
    · exact Or.inr (by simp only [if_neg hc])

lemma wf_add (sim : Str → Str → ℝ) (st : DState) (e : Entity) (h : Wf st) :
    Wf (add_entity sim st e).2.2 := by
  rcases add_entity_cases sim st e with ⟨cid, conf, rest, hm, hc, heq⟩ | heq
  · rw [heq]
    exact wf_merge st cid e conf h
  · rw [heq]
    exact wf_mint st e h

lemma add_entity_tagTy (sim : Str → Str → ℝ) (st : DState) (e : Entity) (t : Str)
    (hwf : Wf st) (ht : strGet e (str "@type") [] = t) (hne : t ≠ []) :
    tagTy (add_entity sim st e).1 = t := by
  rcases add_entity_cases sim st e with ⟨cid, conf, rest, hm, hc, heq⟩ | heq
  · rw [heq]
    have hmem : (cid, conf) ∈ find_matches sim st e := by rw [hm]; simp
    rcases find_matches_sources sim st e cid conf hmem with ⟨sig, hsig, hty⟩ | ⟨cids, hL, hcid⟩
    · rcases hwf.reg (cid, sig) hsig with h1 | h1
      · simp only at h1
        rw [← h1, hty, ht]
      · exfalso
        simp only at h1
        rw [h1.1] at hty
        exact hne (ht ▸ hty.symm)
    · rcases hwf.tyIdx _ _ hL cid hcid with h1 | h1
      · rw [← h1, ht]
      · exact absurd (ht ▸ h1.1) hne
  · rw [heq, mint_entity_parts]
    simp only
    rw [tagTy_genId, strGet_default_agree e _ _ (ht ▸ hne), ht]

lemma runSteps_wf (sim : Str → Str → ℝ) :
    ∀ (es : List Entity) (st : DState), Wf st → Wf (runSteps sim st es).1 := by
  intro es
  induction es with
  | nil => intro st h; exact h
  | cons e rest ih =>
    intro st h
    exact ih _ (wf_add sim st e h)

lemma runSteps_tagTy (sim : Str → Str → ℝ) :
    ∀ (es : List Entity) (st : DState), Wf st →
      ∀ ev ∈ (runSteps sim st es).2, ∀ t, strGet ev.2.2 (str "@type") [] = t → t ≠ [] →
        tagTy ev.1 = t := by
  intro es
  induction es with
  | nil => intro st _ ev hev; simp [runSteps] at hev
  | cons e rest ih =>
    intro st hwf ev hev t ht hne
    simp only [runSteps] at hev
    rcases List.mem_cons.mp hev with rfl | hev2
    · exact add_entity_tagTy sim st e t hwf ht hne
    · exact ih _ (wf_add sim st e hwf) ev hev2 t ht hne

/-- C6: two observations carrying distinct (present, nonempty) entity types
never resolve to the same canonical entity: no matching strategy crosses
types, and the deterministic ids of distinct types differ, so the two
`add_entity` calls return distinct canonical ids whether they mint or merge. -/
theorem C6_types_never_merge (thr : ℝ) (es : List Entity)
    (ev1 ev2 : CanId × Bool × Entity)
    (h1 : ev1 ∈ (runSteps calculate_similarity (init_state thr) es).2)
    (h2 : ev2 ∈ (runSteps calculate_similarity (init_state thr) es).2)
    (t1 t2 : Str)
    (ht1 : strGet ev1.2.2 (str "@type") [] = t1)
    (ht2 : strGet ev2.2.2 (str "@type") [] = t2)
    (hne : t1 ≠ t2) (hne1 : t1 ≠ []) (hne2 : t2 ≠ []) :
    ev1.1 ≠ ev2.1 := by
  intro he
  have g1 := runSteps_tagTy calculate_similarity es _ (wf_init thr) ev1 h1 t1 ht1 hne1
  have g2 := runSteps_tagTy calculate_similarity es _ (wf_init thr) ev2 h2 t2 ht2 hne2
  rw [he] at g1
  exact hne (g1.symm.trans g2)

/-- C6 witness: an `Agent` and a `SemanticAsset` with the identical name
resolve to distinct canonical entities, by `C6_types_never_merge`. -/
theorem C6_witness :
    (generate_canonical_id (str "Agent") (str "gaia"), false,
        ([(str "@type", Val.s (str "Agent")), (str "name", Val.s (str "gaia"))] : Entity)).1 ≠
      (generate_canonical_id (str "SemanticAsset") (str "gaia"), false,
        ([(str "@type", Val.s (str "SemanticAsset")),
          (str "name", Val.s (str "gaia"))] : Entity)).1 :=
  C6_types_never_merge (85/100)
    [[(str "@type", .s (str "Agent")), (str "name", .s (str "gaia"))],
     [(str "@type", .s (str "SemanticAsset")), (str "name", .s (str "gaia"))]]
    _ _ (by decide) (by decide) (str "Agent") (str "SemanticAsset")
    (by decide) (by decide) (by decide) (by decide) (by decide)

/-! ### The alias invariant (claim C1) -/

lemma goodAt_merge_self (st : DState) (cid : CanId) (e : Entity) (conf : ℝ)
    (hl : (lookupL st.entity_registry cid).isSome) :
    GoodAt (merge_entities st cid e conf) cid e := by
  unfold merge_entities
  revert hl
  cases hlk : lookupL st.entity_registry cid with
  | none => intro hl; simp at hl
  | some signature =>
    intro _
    refine ⟨_, lookupL_setKey_self _ _ _, ?_⟩
    by_cases hn : strGet e (str "name") [] = []
    · exact Or.inl hn
    · by_cases hnorm : normalize_name (strGet e (str "name") []) =
          normalize_name signature.canonical_name
      · exact Or.inr (Or.inr hnorm)
      · refine Or.inr (Or.inl ?_)
        show strGet e (str "name") [] ∈
          (if strGet e (str "name") [] ≠ [] ∧ normalize_name (strGet e (str "name") []) ≠
              normalize_name signature.canonical_name
           then addElem signature.aliases (strGet e (str "name") []) else signature.aliases)
        rw [if_pos ⟨hn, hnorm⟩]
        exact mem_addElem_self _ _

lemma goodAt_merge (st : DState) (cid2 : CanId) (e2 : Entity) (conf : ℝ) (cid : CanId)
    (e0 : Entity) (h : GoodAt st cid e0) :
    GoodAt (merge_entities st cid2 e2 conf) cid e0 := by
  obtain ⟨sig, hl, hgood⟩ := h
  unfold merge_entities
  cases hlk : lookupL st.entity_registry cid2 with
  | none => exact ⟨sig, hl, hgood⟩
  | some signature =>
    by_cases he : cid = cid2
    · subst he
      rw [hl] at hlk
      have hsig : signature = sig := by
        injection hlk with h2
        exact h2.symm
      subst hsig
      refine ⟨_, lookupL_setKey_self _ _ _, ?_⟩
      rcases hgood with h2 | h2 | h2
      · exact Or.inl h2
      · refine Or.inr (Or.inl ?_)
        show strGet e0 (str "name") [] ∈
          (if strGet e2 (str "name") [] ≠ [] ∧ normalize_name (strGet e2 (str "name") []) ≠
              normalize_name signature.canonical_name
           then addElem signature.aliases (strGet e2 (str "name") []) else signature.aliases)
        split
        · exact mem_addElem_mono _ _ _ h2
        · exact h2
      · exact Or.inr (Or.inr h2)
    · refine ⟨sig, ?_, hgood⟩
      rw [lookupL_setKey_other _ _ _ _ he]
      exact hl

lemma goodAt_mint (st : DState) (e : Entity) (cid : CanId) (e0 : Entity)
    (h : GoodAt st cid e0) (hne : (mint_entity st e).1 ≠ cid) :
    GoodAt (mint_entity st e).2.2 cid e0 := by
  obtain ⟨sig, hl, hgood⟩ := h
  rw [mint_entity_parts] at hne ⊢
  simp only at hne ⊢
  refine ⟨sig, ?_, hgood⟩
  rw [lookupL_setKey_other _ _ _ _ (fun h2 => hne h2.symm)]
  exact hl

lemma goodAt_step (sim : Str → Str → ℝ) (st : DState) (e : Entity) (cid : CanId)
    (e0 : Entity) (h : GoodAt st cid e0)
    (hnm : (add_entity sim st e).2.1 = true ∨ (add_entity sim st e).1 ≠ cid) :
    GoodAt (add_entity sim st e).2.2 cid e0 := by
  rcases add_entity_cases sim st e with ⟨cid2, conf, rest, hm, hc, heq⟩ | heq
  · rw [heq]
    exact goodAt_merge st cid2 e conf cid e0 h
  · rw [heq] at hnm ⊢
    rcases hnm with hmm | hne
    · rw [mint_entity_parts] at hmm
      simp at hmm
    · exact goodAt_mint st e cid e0 h hne

lemma merged_target_present (sim : Str → Str → ℝ) (st : DState) (e : Entity)
    (cid : CanId) (conf : ℝ) (hwf : Wf st) (hmem : (cid, conf) ∈ find_matches sim st e) :
    (lookupL st.entity_registry cid).isSome := by
  rcases find_matches_sources sim st e cid conf hmem with ⟨sig, hsig, _⟩ | ⟨cids, hL, hcid⟩
  · exact lookupL_isSome_of_mem _ (cid, sig) hsig
  · exact hwf.tyIdxReg _ _ hL cid hcid

lemma runSteps_goodAt (sim : Str → Str → ℝ) :
    ∀ (es : List Entity) (st : DState) (cid : CanId) (e0 : Entity), GoodAt st cid e0 →
      (∀ ev ∈ (runSteps sim st es).2, ev.2.1 = false → ev.1 ≠ cid) →
      GoodAt (runSteps sim st es).1 cid e0 := by
  intro es
  induction es with
  | nil => intro st cid e0 h _; exact h
  | cons e rest ih =>
    intro st cid e0 h hno
    simp only [runSteps]
    apply ih
    · apply goodAt_step sim st e cid e0 h
      by_cases hm : (add_entity sim st e).2.1 = true
      · exact Or.inl hm
      · refine Or.inr (hno ((add_entity sim st e).1, (add_entity sim st e).2.1, e) ?_ ?_)
        · simp only [runSteps]
          exact List.mem_cons_self _ _
        · simpa using hm
    · intro ev hev hf
      refine hno ev ?_ hf
      simp only [runSteps]
      exact List.mem_cons_of_mem _ hev

lemma runSteps_alias_invariant (sim : Str → Str → ℝ) :
    ∀ (es : List Entity) (st : DState), Wf st →
      ∀ (pre post : List (CanId × Bool × Entity)) (ev : CanId × Bool × Entity),
        (runSteps sim st es).2 = pre ++ ev :: post → ev.2.1 = true →
        (∀ ev2 ∈ post, ev2.2.1 = false → ev2.1 ≠ ev.1) →
        GoodAt (runSteps sim st es).1 ev.1 ev.2.2 := by
  intro es
  induction es with
  | nil =>
    intro st _ pre post ev hdec
    exfalso
    have : ((runSteps sim st []).2).length = (pre ++ ev :: post).length := by rw [hdec]
    simp [runSteps] at this
    omega
  | cons e rest ih =>
    intro st hwf pre post ev hdec hm hno
    cases pre with
    | nil =>
      have hdec2 : ((add_entity sim st e).1, (add_entity sim st e).2.1, e) = ev ∧
          (runSteps sim (add_entity sim st e).2.2 rest).2 = post := by
        simp only [runSteps, List.nil_append] at hdec
        exact ⟨(List.cons.injEq .. ▸ hdec).1, (List.cons.injEq .. ▸ hdec).2⟩
      obtain ⟨hev, hpost⟩ := hdec2
      subst hev
      simp only at hm
      rcases add_entity_cases sim st e with ⟨cid2, conf, rest2, hmm, hc, heq⟩ | heq
      · have hmem : (cid2, conf) ∈ find_matches sim st e := by rw [hmm]; simp
        have hpres := merged_target_present sim st e cid2 conf hwf hmem
        have hg : GoodAt (add_entity sim st e).2.2 cid2 e := by
          rw [heq]
          exact goodAt_merge_self st cid2 e conf hpres
        have hid : (add_entity sim st e).1 = cid2 := by rw [heq]
        simp only [runSteps]
        rw [hid]
        apply runSteps_goodAt sim rest _ cid2 e hg
        intro ev2 hev2 hf
        rw [hpost] at hev2
        have := hno ev2 hev2 hf
        rwa [hid] at this
      · rw [heq] at hm
        rw [mint_entity_parts] at hm
        simp at hm
    | cons p pre2 =>
      have hdec2 : (runSteps sim (add_entity sim st e).2.2 rest).2 = pre2 ++ ev :: post := by
        simp only [runSteps, List.cons_append] at hdec
        exact (List.cons.injEq .. ▸ hdec).2
      have := ih (add_entity sim st e).2.2 (wf_add sim st e hwf) pre2 post ev hdec2 hm hno
      simpa only [runSteps] using this

/-- C1 (amended): the registry stores raw names, not normalized forms, and a
mint starts with an empty alias set (the original claim is refuted by
`C1_counterexample`). What does hold: for every `add_entity` call that MERGED
an observation into canonical entity `C`, as long as no later call re-mints
`C`'s id, the final registry entry of `C` records the observation's raw name
among the aliases — unless the name is empty or normalizes to `C`'s canonical
name (in which case `merge_entities` skips the alias). -/
theorem C1_alias_invariant_amended (thr : ℝ) (es : List Entity)
    (pre post : List (CanId × Bool × Entity)) (ev : CanId × Bool × Entity)
    (hdec : (runSteps calculate_similarity (init_state thr) es).2 = pre ++ ev :: post)
    (hmerge : ev.2.1 = true)
    (hnomint : ∀ ev2 ∈ post, ev2.2.1 = false → ev2.1 ≠ ev.1) :
    GoodAt (runSteps calculate_similarity (init_state thr) es).1 ev.1 ev.2.2 :=
  runSteps_alias_invariant calculate_similarity es (init_state thr) (wf_init thr)
    pre post ev hdec hmerge hnomint

/-- C1 counterexample: a single mint from an empty registry produces a
canonical entity whose alias set is empty, so it does not contain the
normalized name of the (minting) contributing observation. -/
theorem C1_counterexample :
    lookupL (add_entity calculate_similarity (init_state (85/100))
        [(str "@type", .s (str "T")), (str "name", .s (str "Gaia"))]).2.2.entity_registry
      (add_entity calculate_similarity (init_state (85/100))
        [(str "@type", .s (str "T")), (str "name", .s (str "Gaia"))]).1 =
      some (mint_signature [(str "@type", .s (str "T")), (str "name", .s (str "Gaia"))]) ∧
    (mint_signature [(str "@type", .s (str "T")), (str "name", .s (str "Gaia"))]).aliases = [] ∧
    normalize_name (str "Gaia") ∉
      (mint_signature [(str "@type", .s (str "T")),
        (str "name", .s (str "Gaia"))]).aliases := by
  refine ⟨?_, rfl, by simp [mint_signature]⟩
  rw [add_entity_init, mint_entity_parts]
  exact lookupL_setKey_self _ _ _

/-! ### Threshold monotonicity (claim C9): the single-step direction -/

lemma scanNames_ge (sim : Str → Str → ℝ) (thr : ℝ) (n : Str) :
    ∀ (l : List Str) (s : ℝ), scanNames sim thr n l = some s → thr ≤ s := by
  intro l
  induction l with
  | nil => intro s h; simp [scanNames] at h
  | cons nm rest ih =>
    intro s h
    unfold scanNames at h
    split at h
    · rename_i hc
      have hs : sim n nm = s := Option.some_inj.mp h
      rwa [hs] at hc
    · exact ih s h

lemma scanNames_mono (sim : Str → Str → ℝ) (t1 t2 : ℝ) (n : Str) (h12 : t1 ≤ t2) :
    ∀ (l : List Str) (s : ℝ), scanNames sim t2 n l = some s →
      ∃ s2, scanNames sim t1 n l = some s2 ∧ t1 ≤ s2 := by
  intro l
  induction l with
  | nil => intro s h; simp [scanNames] at h
  | cons nm rest ih =>
    intro s h
    unfold scanNames at h ⊢
    split at h
    · rename_i hc
      rw [if_pos (le_trans h12 hc)]
      exact ⟨sim n nm, rfl, le_trans h12 hc⟩
    · by_cases hc1 : t1 ≤ sim n nm
      · rw [if_pos hc1]
        exact ⟨sim n nm, rfl, hc1⟩
      · rw [if_neg hc1]
        exact ih s h

lemma length_insertDesc (x : CanId × ℝ) (l : List (CanId × ℝ)) :
    (insertDesc x l).length = l.length + 1 := by
  induction l with
  | nil => rfl
  | cons y ys ih =>
    unfold insertDesc
    split
    · simp
    · simp [ih]

lemma length_sortDesc (l : List (CanId × ℝ)) : (sortDesc l).length = l.length := by
  unfold sortDesc
  induction l with
  | nil => rfl
  | cons a rest ih =>
    rw [List.foldr_cons, length_insertDesc, ih]
    rfl

lemma sortDesc_ne_nil (l : List (CanId × ℝ)) (h : l ≠ []) : sortDesc l ≠ [] := by
  intro he
  have h2 := length_sortDesc l
  rw [he] at h2
  simp at h2
  exact h (List.length_eq_zero.mp h2.symm)

lemma mem_insertDesc_self (x : CanId × ℝ) (l : List (CanId × ℝ)) : x ∈ insertDesc x l := by
  induction l with
  | nil => simp [insertDesc]
  | cons y ys ih =>
    unfold insertDesc
    split
    · simp
    · simpa using Or.inr ih

lemma mem_insertDesc_of_mem (x y : CanId × ℝ) (l : List (CanId × ℝ)) (h : y ∈ l) :
    y ∈ insertDesc x l := by
  induction l with
  | nil => simp at h
  | cons z zs ih =>
    unfold insertDesc
    split
    · simp [h]
    · rcases List.mem_cons.mp h with rfl | h2
      · simp
      · simpa using Or.inr (ih h2)

lemma mem_sortDesc_of_mem (x : CanId × ℝ) (l : List (CanId × ℝ)) (hx : x ∈ l) :
    x ∈ sortDesc l := by
  unfold sortDesc
  induction l with
  | nil => simp at hx
  | cons a rest ih =>
    simp only [List.foldr_cons]
    rcases List.mem_cons.mp hx with rfl | h2
    · exact mem_insertDesc_self _ _
    · exact mem_insertDesc_of_mem _ _ _ (ih h2)

lemma sortDesc_head_max (l : List (CanId × ℝ)) (x : CanId × ℝ) (hx : x ∈ l)
    (h0 : CanId × ℝ) (t0 : List (CanId × ℝ)) (hs : sortDesc l = h0 :: t0) : x.2 ≤ h0.2 := by
  have key : ∀ (z : CanId × ℝ) (zs : List (CanId × ℝ)),
      (∀ w ∈ zs, ∀ hh tt, zs = hh :: tt → w.2 ≤ hh.2) →
      ∀ w ∈ insertDesc z zs, ∀ hh tt, insertDesc z zs = hh :: tt → w.2 ≤ hh.2 := by
    intro z zs
    induction zs with
    | nil =>
      intro _ w hw hh tt heq2
      simp only [insertDesc, List.mem_singleton] at hw heq2
      rw [hw]
      injection heq2 with h1 _
      rw [h1]
    | cons b bs ihb =>
      intro hzs w hw hh tt heq2
      unfold insertDesc at hw heq2
      split at heq2
      · rename_i hble
        injection heq2 with h1 _
        subst h1
        rw [if_pos hble] at hw
        rcases List.mem_cons.mp hw with rfl | hw2
        · exact le_refl _
        · rcases List.mem_cons.mp hw2 with rfl | hw3
          · exact hble
          · exact le_trans (hzs w (by simp [hw3]) b bs rfl) hble
      · rename_i hble
        injection heq2 with h1 _
        subst h1
        rw [if_neg hble] at hw
        rcases List.mem_cons.mp hw with rfl | hw2
        · exact le_refl _
        · rcases mem_insertDesc _ _ _ hw2 with rfl | hw3
          · exact le_of_not_le hble
          · exact hzs w (by simp [hw3]) b bs rfl
  have main : ∀ (m : List (CanId × ℝ)) (y : CanId × ℝ), y ∈ sortDesc m →
      ∀ h1 t1, sortDesc m = h1 :: t1 → y.2 ≤ h1.2 := by
    intro m
    unfold sortDesc
    induction m with
    | nil => intro y hy; simp at hy
    | cons a rest ih =>
      simp only [List.foldr_cons]
      intro y hy h1 t1 heq
      exact key a (List.foldr insertDesc [] rest)
        (fun w hw hh tt heq2 => ih w (by simpa using hw) hh tt (by simpa using heq2))
        y hy h1 t1 heq
  exact main l x (mem_sortDesc_of_mem x l hx) h0 t0 hs

lemma exact_part_congr (st1 st2 : DState) (e : Entity)
    (hreg : st1.entity_registry = st2.entity_registry)
    (hni : st1.name_index = st2.name_index) : exact_part st1 e = exact_part st2 e := by
  unfold exact_part
  rw [hreg, hni]

lemma prop_part_congr (st1 st2 : DState) (e : Entity)
    (hreg : st1.entity_registry = st2.entity_registry) :
    prop_part st1 e = prop_part st2 e := by
  unfold prop_part
  rw [hreg]

lemma exact_part_score (st : DState) (e : Entity) (cid : CanId) (s : ℝ)
    (h : (cid, s) ∈ exact_part st e) : s = 1 := by
  unfold exact_part at h
  obtain ⟨cid0, _, hf⟩ := List.mem_filterMap.mp h
  revert hf
  cases lookupL st.entity_registry cid0 with
  | none => intro hf; simp at hf
  | some sig =>
    intro hf
    have h6 : sig.entity_type = strGet e (str "@type") [] ∧ cid0 = cid ∧ (1 : ℝ) = s := by
      simpa using hf
    exact h6.2.2.symm

lemma propCandidates_score (e : Entity) (kv : CanId × EntitySignature) (x : CanId × ℝ)
    (h : x ∈ propCandidates e kv) : x.2 = 95 / 100 ∨ x.2 = 1 := by
  unfold propCandidates at h
  have key : ∀ (k : Str) (sc : ℝ), x ∈ (match getKey e k with
      | some v =>
        if v.truthy = true ∧ lookupL kv.2.properties k = some v then [(kv.1, sc)] else []
      | none => ([] : List (CanId × ℝ))) → x.2 = sc := by
    intro k sc hx
    revert hx
    cases getKey e k with
    | none => intro hx; simp at hx
    | some v =>
      show x ∈ (if v.truthy = true ∧ lookupL kv.2.properties k = some v
          then [(kv.1, sc)] else []) → x.2 = sc
      split
      · intro hx
        have hx2 : x = (kv.1, sc) := by simpa using hx
        rw [hx2]
      · intro hx; simp at hx
  rcases List.mem_append.mp h with h2 | h2
  · rcases List.mem_append.mp h2 with h3 | h3
    · exact Or.inl (key _ _ h3)
    · exact Or.inl (key _ _ h3)
  · exact Or.inr (key _ _ h2)

lemma prop_part_score (st : DState) (e : Entity) (cid : CanId) (s : ℝ)
    (h : (cid, s) ∈ prop_part st e) : s = 95 / 100 ∨ s = 1 := by
  unfold prop_part at h
  split at h
  · obtain ⟨kv, _, hmem⟩ := List.mem_flatMap.mp h
    split at hmem
    · exact propCandidates_score _ _ _ hmem
    · simp at hmem
  · simp at h

lemma fuzzy_part_score (sim : Str → Str → ℝ) (st : DState) (e : Entity) (cid : CanId) (s : ℝ)
    (h : (cid, s) ∈ fuzzy_part sim st e) : st.similarity_threshold ≤ s := by
  unfold fuzzy_part at h
  obtain ⟨cid0, _, hmem⟩ := List.mem_flatMap.mp h
  revert hmem
  cases lookupL st.entity_registry cid0 with
  | none => intro hmem; simp at hmem
  | some sig =>
    show (cid, s) ∈ (match scanNames sim st.similarity_threshold
        (strGet e (str "name") []) (sig.canonical_name :: sig.aliases) with
      | some sc => [(cid0, sc)]
      | none => []) → st.similarity_threshold ≤ s
    cases hsn : scanNames sim st.similarity_threshold
        (strGet e (str "name") []) (sig.canonical_name :: sig.aliases) with
    | none => intro hmem; simp at hmem
    | some sc =>
      intro hmem
      have h2 : cid = cid0 ∧ s = sc := by simpa using hmem
      rw [h2.2]
      exact scanNames_ge _ _ _ _ _ hsn

lemma fuzzy_transfer (sim : Str → Str → ℝ) (st1 st2 : DState) (e : Entity)
    (hreg : st1.entity_registry = st2.entity_registry)
    (hty : st1.type_index = st2.type_index)
    (h12 : st1.similarity_threshold ≤ st2.similarity_threshold)
    (cid : CanId) (s : ℝ) (h : (cid, s) ∈ fuzzy_part sim st2 e) :
    ∃ s2, (cid, s2) ∈ fuzzy_part sim st1 e := by
  unfold fuzzy_part at h ⊢
  rw [hreg, hty]
  obtain ⟨cid0, hcid0, hmem⟩ := List.mem_flatMap.mp h
  revert hmem
  cases hl : lookupL st2.entity_registry cid0 with
  | none => intro hmem; simp at hmem
  | some sig =>
    show (cid, s) ∈ (match scanNames sim st2.similarity_threshold
        (strGet e (str "name") []) (sig.canonical_name :: sig.aliases) with
      | some sc => [(cid0, sc)]
      | none => []) → _
    cases hsn : scanNames sim st2.similarity_threshold
        (strGet e (str "name") []) (sig.canonical_name :: sig.aliases) with
    | none => intro hmem; simp at hmem
    | some sc =>
      intro hmem
      have h2 : cid = cid0 ∧ s = sc := by simpa using hmem
      obtain ⟨s2, hs2, _⟩ := scanNames_mono sim st1.similarity_threshold
        st2.similarity_threshold (strGet e (str "name") []) h12 _ sc hsn
      refine ⟨s2, List.mem_flatMap.mpr ⟨cid0, hcid0, ?_⟩⟩
      rw [hl]
      show (cid, s2) ∈ (match scanNames sim st1.similarity_threshold
          (strGet e (str "name") []) (sig.canonical_name :: sig.aliases) with
        | some s => [(cid0, s)]
        | none => ([] : List (CanId × ℝ)))
      rw [hs2]
      simp [h2.1]

lemma dedupMatches_cons_nil (m : CanId × ℝ) (rest : List (CanId × ℝ)) :
    dedupMatches (m :: rest) [] = m :: dedupMatches rest [m.1] := by
  show (if m.1 ∈ ([] : List CanId) then dedupMatches rest []
      else m :: dedupMatches rest [m.1]) = m :: dedupMatches rest [m.1]
  rw [if_neg (List.not_mem_nil m.1)]

lemma find_matches_head_ge (sim : Str → Str → ℝ) (st : DState) (e : Entity)
    (hn : ¬ strGet e (str "name") [] = []) (x : CanId × ℝ)
    (hx : x ∈ exact_part st e ++ fuzzy_part sim st e ++ prop_part st e) :
    ∃ h0 t0, find_matches sim st e = h0 :: t0 ∧ x.2 ≤ h0.2 := by
  unfold find_matches
  rw [if_neg hn]
  have hne : sortDesc (exact_part st e ++ fuzzy_part sim st e ++ prop_part st e) ≠ [] :=
    sortDesc_ne_nil _ (by intro hcon; rw [hcon] at hx; simp at hx)
  obtain ⟨h0, t0, hs⟩ := List.exists_cons_of_ne_nil hne
  refine ⟨h0, dedupMatches t0 [h0.1], ?_, sortDesc_head_max _ x hx h0 t0 hs⟩
  rw [hs, dedupMatches_cons_nil]

lemma add_entity_merged_parts (sim : Str → Str → ℝ) (st : DState) (e : Entity)
    (h : (add_entity sim st e).2.1 = true) :
    ∃ cid conf, (cid, conf) ∈ exact_part st e ++ fuzzy_part sim st e ++ prop_part st e ∧
      st.similarity_threshold ≤ conf ∧ ¬ strGet e (str "name") [] = [] := by
  rcases add_entity_cases sim st e with ⟨cid, conf, rest, hm, hc, heq⟩ | heq
  · have hn : ¬ strGet e (str "name") [] = [] := by
      intro hcon
      rw [find_matches_empty_name sim st e hcon] at hm
      exact List.cons_ne_nil _ _ hm.symm
    have hmem : (cid, conf) ∈ find_matches sim st e := by rw [hm]; simp
    refine ⟨cid, conf, ?_, hc, hn⟩
    unfold find_matches at hmem
    rw [if_neg hn] at hmem
    exact mem_sortDesc _ _ (mem_dedupMatches _ _ _ hmem)
  · rw [heq, mint_entity_parts] at h
    simp at h

lemma add_entity_merge_mono (sim : Str → Str → ℝ) (st1 st2 : DState) (e : Entity)
    (hreg : st1.entity_registry = st2.entity_registry)
    (hni : st1.name_index = st2.name_index)
    (hty : st1.type_index = st2.type_index)
    (h12 : st1.similarity_threshold ≤ st2.similarity_threshold)
    (hmerge : (add_entity sim st2 e).2.1 = true) :
    (add_entity sim st1 e).2.1 = true := by
  obtain ⟨cid, conf, hx, hconf, hn⟩ := add_entity_merged_parts sim st2 e hmerge
  have hcand : ∃ y : CanId × ℝ,
      y ∈ exact_part st1 e ++ fuzzy_part sim st1 e ++ prop_part st1 e ∧
      st1.similarity_threshold ≤ y.2 := by
    rcases List.mem_append.mp hx with h4 | h4
    · rcases List.mem_append.mp h4 with h5 | h5
      · refine ⟨(cid, conf), ?_, le_trans h12 hconf⟩
        rw [List.mem_append]
        exact Or.inl (List.mem_append.mpr (Or.inl (by
          rw [exact_part_congr st1 st2 e hreg hni]; exact h5)))
      · obtain ⟨s2, hs2⟩ := fuzzy_transfer sim st1 st2 e hreg hty h12 cid conf h5
        exact ⟨(cid, s2),
          List.mem_append.mpr (Or.inl (List.mem_append.mpr (Or.inr hs2))),
          fuzzy_part_score sim st1 e cid s2 hs2⟩
    · refine ⟨(cid, conf), ?_, le_trans h12 hconf⟩
      exact List.mem_append.mpr (Or.inr (by
        rw [prop_part_congr st1 st2 e hreg]; exact h4))
  obtain ⟨y, hy, hble⟩ := hcand
  obtain ⟨h0, t0, hfm, hge⟩ := find_matches_head_ge sim st1 e hn y hy
  obtain ⟨c0, s0⟩ := h0
  unfold add_entity
  rw [hfm]
  show (if st1.similarity_threshold ≤ s0 then (c0, true, merge_entities st1 c0 e s0)
      else mint_entity st1 e).2.1 = true
  rw [if_pos (le_trans hble hge)]

/-- C9 (amended to the single-call property): over one `add_entity` call on
identical stores, raising the similarity threshold never turns a mint into a
merge — if the call merges at the higher threshold `t2`, it also merges at any
lower threshold `t1`. (The original whole-sequence property is refuted by
`C9_counterexample`: early low-threshold merges can hide the properties later
observations would have matched on.) -/
theorem C9_step_monotone (st : DState) (e : Entity) (t1 t2 : ℝ) (h12 : t1 ≤ t2)
    (hmerge : (add_entity calculate_similarity (withThr st t2) e).2.1 = true) :
    (add_entity calculate_similarity (withThr st t1) e).2.1 = true :=
  add_entity_merge_mono calculate_similarity (withThr st t1) (withThr st t2) e
    rfl rfl rfl h12 hmerge

/-! ### Evaluating concrete runs: scanNames equations and similarity values -/

lemma scanNames_nil (sim : Str → Str → ℝ) (thr : ℝ) (n : Str) :
    scanNames sim thr n [] = none := rfl

lemma scanNames_cons_pos (sim : Str → Str → ℝ) (thr : ℝ) (n nm : Str) (l : List Str)
    (h : thr ≤ sim n nm) : scanNames sim thr n (nm :: l) = some (sim n nm) := by
  rw [show scanNames sim thr n (nm :: l) =
    (if thr ≤ sim n nm then some (sim n nm) else scanNames sim thr n l) from rfl, if_pos h]

lemma scanNames_cons_neg (sim : Str → Str → ℝ) (thr : ℝ) (n nm : Str) (l : List Str)
    (h : ¬ thr ≤ sim n nm) : scanNames sim thr n (nm :: l) = scanNames sim thr n l := by
  rw [show scanNames sim thr n (nm :: l) =
    (if thr ≤ sim n nm then some (sim n nm) else scanNames sim thr n l) from rfl, if_neg h]

lemma idf_df2 (d1 d2 g : Str) (h : df d1 d2 g = 2) : idf d1 d2 g = 1 := by
  unfold idf
  rw [h]
  norm_num

lemma idf_bounds_one (d1 d2 g : Str) (h : df d1 d2 g = 1) :
    1 ≤ idf d1 d2 g ∧ idf d1 d2 g ≤ 3 / 2 :=
  ⟨idf_ge_one _ _ _, idf_le _ _ _ h.ge⟩

/-- When the two names share no n-gram, the tf-idf vectors have disjoint
support and the cosine numerator vanishes. -/
lemma calcSim_disjoint (a b : Str) (ha : ¬ a = []) (hb : ¬ b = [])
    (hne : ¬ normalize_name a = normalize_name b)
    (hv : ¬ vocabL a b = [])
    (hd : ∀ g ∈ analyze a, g ∉ analyze b) :
    calculate_similarity a b = 0 := by
  unfold calculate_similarity
  rw [if_neg (show ¬ (a = [] ∨ b = []) from by simp [ha, hb]), if_neg hne, if_neg hv]
  unfold tfidf_cosine
  have h0 : (∑ g ∈ (vocabL a b).toFinset, wA a b g * wB a b g) = 0 := by
    apply Finset.sum_eq_zero
    intro g _
    unfold wA wB
    by_cases hga : g ∈ analyze a
    · have hz : tf b g = 0 := by
        unfold tf
        exact List.count_eq_zero.mpr (hd g hga)
      rw [hz]
      push_cast
      ring
    · have hz : tf a g = 0 := by
        unfold tf
        exact List.count_eq_zero.mpr hga
      rw [hz]
      push_cast
      ring
  rw [h0, zero_div]

lemma calcSim_zero_rr_ee : calculate_similarity (str "rr") (str "ee") = 0 :=
  calcSim_disjoint _ _ (by decide) (by decide) (by decide) (by decide) (by decide)

lemma calcSim_zero_rr_e : calculate_similarity (str "rr") (str "e") = 0 :=
  calcSim_disjoint _ _ (by decide) (by decide) (by decide) (by decide) (by decide)

lemma calcSim_zero_ss_ee : calculate_similarity (str "ss") (str "ee") = 0 :=
  calcSim_disjoint _ _ (by decide) (by decide) (by decide) (by decide) (by decide)

lemma calcSim_zero_ss_e : calculate_similarity (str "ss") (str "e") = 0 :=
  calcSim_disjoint _ _ (by decide) (by decide) (by decide) (by decide) (by decide)

lemma calcSim_zero_ss_rr : calculate_similarity (str "ss") (str "rr") = 0 :=
  calcSim_disjoint _ _ (by decide) (by decide) (by decide) (by decide) (by decide)

set_option maxHeartbeats 2000000 in
/-- Two-sided rational bounds on the one genuinely fuzzy similarity value in
the monotonicity counterexample: the tf-idf cosine of `"e"` and `"ee"` lies
in `[1/100, 1/2]`. -/
lemma calcSim_e_ee_bounds :
    1 / 100 ≤ calculate_similarity (str "e") (str "ee") ∧
    calculate_similarity (str "e") (str "ee") ≤ 1 / 2 := by
  have hvocab : vocabL (str "e") (str "ee") =
      [[32, 101, 32], [32, 101], [101, 101], [101, 32],
       [32, 101, 101], [101, 101, 32], [32, 101, 101, 32]] := by decide
  have tA1 : tf (str "e") ([32, 101, 32] : Str) = 1 := by decide
  have tA2 : tf (str "e") ([32, 101] : Str) = 1 := by decide
  have tA3 : tf (str "e") ([101, 101] : Str) = 0 := by decide
  have tA4 : tf (str "e") ([101, 32] : Str) = 1 := by decide
  have tA5 : tf (str "e") ([32, 101, 101] : Str) = 0 := by decide
  have tA6 : tf (str "e") ([101, 101, 32] : Str) = 0 := by decide
  have tA7 : tf (str "e") ([32, 101, 101, 32] : Str) = 0 := by decide
  have tB1 : tf (str "ee") ([32, 101, 32] : Str) = 0 := by decide
  have tB2 : tf (str "ee") ([32, 101] : Str) = 1 := by decide
  have tB3 : tf (str "ee") ([101, 101] : Str) = 1 := by decide
  have tB4 : tf (str "ee") ([101, 32] : Str) = 1 := by decide
  have tB5 : tf (str "ee") ([32, 101, 101] : Str) = 1 := by decide
  have tB6 : tf (str "ee") ([101, 101, 32] : Str) = 1 := by decide
  have tB7 : tf (str "ee") ([32, 101, 101, 32] : Str) = 1 := by decide
  have i2a : idf (str "e") (str "ee") ([32, 101] : Str) = 1 := idf_df2 _ _ _ (by decide)
  have i2b : idf (str "e") (str "ee") ([101, 32] : Str) = 1 := idf_df2 _ _ _ (by decide)
  obtain ⟨l1, u1⟩ := idf_bounds_one (str "e") (str "ee") ([32, 101, 32] : Str) (by decide)
  obtain ⟨l2, u2⟩ := idf_bounds_one (str "e") (str "ee") ([101, 101] : Str) (by decide)
  obtain ⟨l3, u3⟩ := idf_bounds_one (str "e") (str "ee") ([32, 101, 101] : Str) (by decide)
  obtain ⟨l4, u4⟩ := idf_bounds_one (str "e") (str "ee") ([101, 101, 32] : Str) (by decide)
  obtain ⟨l5, u5⟩ := idf_bounds_one (str "e") (str "ee") ([32, 101, 101, 32] : Str) (by decide)
  have hN : (∑ g ∈ (vocabL (str "e") (str "ee")).toFinset,
      wA (str "e") (str "ee") g * wB (str "e") (str "ee") g) = 2 := by
    rw [hvocab, List.sum_toFinset _ (by decide)]
    simp only [List.map_cons, List.map_nil, List.sum_cons, List.sum_nil]
    unfold wA wB
    rw [tA1, tA2, tA3, tA4, tA5, tA6, tA7, tB1, tB2, tB3, tB4, tB5, tB6, tB7, i2a, i2b]
    push_cast
    ring
  have hSA : (∑ g ∈ (vocabL (str "e") (str "ee")).toFinset,
      wA (str "e") (str "ee") g ^ 2) =
      2 + idf (str "e") (str "ee") ([32, 101, 32] : Str) ^ 2 := by
    rw [hvocab, List.sum_toFinset _ (by decide)]
    simp only [List.map_cons, List.map_nil, List.sum_cons, List.sum_nil]
    unfold wA
    rw [tA1, tA2, tA3, tA4, tA5, tA6, tA7, i2a, i2b]
    push_cast
    ring
  have hSB : (∑ g ∈ (vocabL (str "e") (str "ee")).toFinset,
      wB (str "e") (str "ee") g ^ 2) =
      2 + (idf (str "e") (str "ee") ([101, 101] : Str) ^ 2 +
        idf (str "e") (str "ee") ([32, 101, 101] : Str) ^ 2 +
        idf (str "e") (str "ee") ([101, 101, 32] : Str) ^ 2 +
        idf (str "e") (str "ee") ([32, 101, 101, 32] : Str) ^ 2) := by
    rw [hvocab, List.sum_toFinset _ (by decide)]
    simp only [List.map_cons, List.map_nil, List.sum_cons, List.sum_nil]
    unfold wB
    rw [tB1, tB2, tB3, tB4, tB5, tB6, tB7, i2a, i2b]
    push_cast
    ring
  have hcs : calculate_similarity (str "e") (str "ee") =
      2 / (Real.sqrt (2 + idf (str "e") (str "ee") ([32, 101, 32] : Str) ^ 2) *
        Real.sqrt (2 + (idf (str "e") (str "ee") ([101, 101] : Str) ^ 2 +
          idf (str "e") (str "ee") ([32, 101, 101] : Str) ^ 2 +
          idf (str "e") (str "ee") ([101, 101, 32] : Str) ^ 2 +
          idf (str "e") (str "ee") ([32, 101, 101, 32] : Str) ^ 2))) := by
    unfold calculate_similarity
    rw [if_neg (show ¬ (str "e" = [] ∨ str "ee" = []) from by decide),
        if_neg (show ¬ normalize_name (str "e") = normalize_name (str "ee") from by decide),
        if_neg (show ¬ vocabL (str "e") (str "ee") = [] from by decide)]
    unfold tfidf_cosine
    rw [hN, hSA, hSB]
  rw [hcs]
  have hA_lb : (3 : ℝ) ≤ 2 + idf (str "e") (str "ee") ([32, 101, 32] : Str) ^ 2 := by
    nlinarith
  have hA_ub : 2 + idf (str "e") (str "ee") ([32, 101, 32] : Str) ^ 2 ≤ 17 / 4 := by
    nlinarith
  have hB_lb : (6 : ℝ) ≤ 2 + (idf (str "e") (str "ee") ([101, 101] : Str) ^ 2 +
      idf (str "e") (str "ee") ([32, 101, 101] : Str) ^ 2 +
      idf (str "e") (str "ee") ([101, 101, 32] : Str) ^ 2 +
      idf (str "e") (str "ee") ([32, 101, 101, 32] : Str) ^ 2) := by
    nlinarith
  have hB_ub : 2 + (idf (str "e") (str "ee") ([101, 101] : Str) ^ 2 +
      idf (str "e") (str "ee") ([32, 101, 101] : Str) ^ 2 +
      idf (str "e") (str "ee") ([101, 101, 32] : Str) ^ 2 +
      idf (str "e") (str "ee") ([32, 101, 101, 32] : Str) ^ 2) ≤ 11 := by
    nlinarith
  have hA_nonneg : (0 : ℝ) ≤ 2 + idf (str "e") (str "ee") ([32, 101, 32] : Str) ^ 2 := by
    linarith
  rw [← Real.sqrt_mul hA_nonneg]
  have hPl : (16 : ℝ) ≤ (2 + idf (str "e") (str "ee") ([32, 101, 32] : Str) ^ 2) *
      (2 + (idf (str "e") (str "ee") ([101, 101] : Str) ^ 2 +
        idf (str "e") (str "ee") ([32, 101, 101] : Str) ^ 2 +
        idf (str "e") (str "ee") ([101, 101, 32] : Str) ^ 2 +
        idf (str "e") (str "ee") ([32, 101, 101, 32] : Str) ^ 2)) := by
    nlinarith
  have hPu : (2 + idf (str "e") (str "ee") ([32, 101, 32] : Str) ^ 2) *
      (2 + (idf (str "e") (str "ee") ([101, 101] : Str) ^ 2 +
        idf (str "e") (str "ee") ([32, 101, 101] : Str) ^ 2 +
        idf (str "e") (str "ee") ([101, 101, 32] : Str) ^ 2 +
        idf (str "e") (str "ee") ([32, 101, 101, 32] : Str) ^ 2)) ≤ 100 := by
    nlinarith
  have hs4 : (4 : ℝ) ≤ Real.sqrt ((2 + idf (str "e") (str "ee") ([32, 101, 32] : Str) ^ 2) *
      (2 + (idf (str "e") (str "ee") ([101, 101] : Str) ^ 2 +
        idf (str "e") (str "ee") ([32, 101, 101] : Str) ^ 2 +
        idf (str "e") (str "ee") ([101, 101, 32] : Str) ^ 2 +
        idf (str "e") (str "ee") ([32, 101, 101, 32] : Str) ^ 2))) := by
    have h16 : Real.sqrt 16 = 4 := by
      rw [show (16 : ℝ) = 4 ^ 2 by norm_num, Real.sqrt_sq (by norm_num)]
    calc (4 : ℝ) = Real.sqrt 16 := h16.symm
      _ ≤ _ := Real.sqrt_le_sqrt hPl
  have hs10 : Real.sqrt ((2 + idf (str "e") (str "ee") ([32, 101, 32] : Str) ^ 2) *
      (2 + (idf (str "e") (str "ee") ([101, 101] : Str) ^ 2 +
        idf (str "e") (str "ee") ([32, 101, 101] : Str) ^ 2 +
        idf (str "e") (str "ee") ([101, 101, 32] : Str) ^ 2 +
        idf (str "e") (str "ee") ([32, 101, 101, 32] : Str) ^ 2))) ≤ 10 := by
    have h100 : Real.sqrt 100 = 10 := by
      rw [show (100 : ℝ) = 10 ^ 2 by norm_num, Real.sqrt_sq (by norm_num)]
    calc Real.sqrt _ ≤ Real.sqrt 100 := Real.sqrt_le_sqrt hPu
      _ = 10 := h100
  have hDpos : (0 : ℝ) < Real.sqrt ((2 + idf (str "e") (str "ee") ([32, 101, 32] : Str) ^ 2) *
      (2 + (idf (str "e") (str "ee") ([101, 101] : Str) ^ 2 +
        idf (str "e") (str "ee") ([32, 101, 101] : Str) ^ 2 +
        idf (str "e") (str "ee") ([101, 101, 32] : Str) ^ 2 +
        idf (str "e") (str "ee") ([32, 101, 101, 32] : Str) ^ 2))) := by
    linarith
  constructor
  · rw [le_div_iff₀ hDpos]
    linarith
  · rw [div_le_iff₀ hDpos]
    linarith

lemma step_o1 (t : ℝ) :
    add_entity calculate_similarity (init_state t) obsE1 = (cidEE, false, stEE t) := by
  rw [add_entity_init]
  rfl

set_option maxHeartbeats 1000000 in
lemma step_t1_o2 :
    add_entity calculate_similarity (stEE (1 / 100)) obsE2 = (cidEE, true, stT1b) := by
  have hb := calcSim_e_ee_bounds
  have hfz : fuzzy_part calculate_similarity (stEE (1 / 100)) obsE2 =
      [(cidEE, calculate_similarity (str "e") (str "ee"))] := by
    show (match scanNames calculate_similarity ((1 : ℝ) / 100) (str "e") [str "ee"] with
      | some s => [(cidEE, s)]
      | none => ([] : List (CanId × ℝ))) ++ [] = _
    rw [scanNames_cons_pos calculate_similarity ((1 : ℝ) / 100) (str "e") (str "ee") [] hb.1]
    rfl
  have hfm : find_matches calculate_similarity (stEE (1 / 100)) obsE2 =
      [(cidEE, calculate_similarity (str "e") (str "ee"))] := by
    unfold find_matches
    rw [if_neg (show ¬ strGet obsE2 (str "name") [] = [] from by decide),
        show exact_part (stEE (1 / 100)) obsE2 = [] from rfl, hfz,
        show prop_part (stEE (1 / 100)) obsE2 = [] from rfl]
    rfl
  unfold add_entity
  rw [hfm]
  show (if (stEE (1 / 100)).similarity_threshold ≤ calculate_similarity (str "e") (str "ee")
      then ((cidEE, true, merge_entities (stEE (1 / 100)) cidEE obsE2
        (calculate_similarity (str "e") (str "ee"))) : CanId × Bool × DState)
      else mint_entity (stEE (1 / 100)) obsE2) = (cidEE, true, stT1b)
  rw [if_pos (show (stEE (1 / 100)).similarity_threshold ≤
      calculate_similarity (str "e") (str "ee") from hb.1)]
  rfl

set_option maxHeartbeats 1000000 in
lemma step_t1_o3 :
    add_entity calculate_similarity stT1b obsE3 = (cidRR, false, stT1c) := by
  have hfz : fuzzy_part calculate_similarity stT1b obsE3 = [] := by
    show (match scanNames calculate_similarity ((1 : ℝ) / 100) (str "rr")
        [str "ee", str "e"] with
      | some s => [(cidEE, s)]
      | none => ([] : List (CanId × ℝ))) ++ [] = []
    rw [scanNames_cons_neg _ _ _ _ _ (show ¬ (1 : ℝ) / 100 ≤
          calculate_similarity (str "rr") (str "ee") from by
        rw [calcSim_zero_rr_ee]; norm_num),
      scanNames_cons_neg _ _ _ _ _ (show ¬ (1 : ℝ) / 100 ≤
          calculate_similarity (str "rr") (str "e") from by
        rw [calcSim_zero_rr_e]; norm_num),
      scanNames_nil]
    rfl
  have hfm : find_matches calculate_similarity stT1b obsE3 = [] := by
    unfold find_matches
    rw [if_neg (show ¬ strGet obsE3 (str "name") [] = [] from by decide),
        show exact_part stT1b obsE3 = [] from rfl, hfz,
        show prop_part stT1b obsE3 = [] from rfl]
    rfl
  rw [add_entity_of_matches_nil _ _ _ hfm]
  rfl

set_option maxHeartbeats 1000000 in
lemma step_t1_o4 :
    add_entity calculate_similarity stT1c obsE4 =
      (cidSS, false, (mint_entity stT1c obsE4).2.2) := by
  have hfz : fuzzy_part calculate_similarity stT1c obsE4 = [] := by
    show ((match scanNames calculate_similarity ((1 : ℝ) / 100) (str "ss")
        [str "ee", str "e"] with
      | some s => [(cidEE, s)]
      | none => ([] : List (CanId × ℝ))) ++
      ((match scanNames calculate_similarity ((1 : ℝ) / 100) (str "ss") [str "rr"] with
        | some s => [(cidRR, s)]
        | none => ([] : List (CanId × ℝ))) ++ [])) = []
    rw [scanNames_cons_neg _ _ _ _ _ (show ¬ (1 : ℝ) / 100 ≤
          calculate_similarity (str "ss") (str "ee") from by
        rw [calcSim_zero_ss_ee]; norm_num),
      scanNames_cons_neg _ _ _ _ _ (show ¬ (1 : ℝ) / 100 ≤
          calculate_similarity (str "ss") (str "e") from by
        rw [calcSim_zero_ss_e]; norm_num),
      scanNames_cons_neg _ _ _ _ _ (show ¬ (1 : ℝ) / 100 ≤
          calculate_similarity (str "ss") (str "rr") from by
        rw [calcSim_zero_ss_rr]; norm_num),
      scanNames_nil]
    rfl
  have hfm : find_matches calculate_similarity stT1c obsE4 = [] := by
    unfold find_matches
    rw [if_neg (show ¬ strGet obsE4 (str "name") [] = [] from by decide),
        show exact_part stT1c obsE4 = [] from rfl, hfz,
        show prop_part stT1c obsE4 = [] from rfl]
    rfl
  rw [add_entity_of_matches_nil _ _ _ hfm]
  rfl

set_option maxHeartbeats 1000000 in
lemma step_t2_o2 :
    add_entity calculate_similarity (stEE (19 / 20)) obsE2 = (cidE, false, stT2b) := by
  have hb := calcSim_e_ee_bounds
  have hfz : fuzzy_part calculate_similarity (stEE (19 / 20)) obsE2 = [] := by
    show (match scanNames calculate_similarity ((19 : ℝ) / 20) (str "e") [str "ee"] with
      | some s => [(cidEE, s)]
      | none => ([] : List (CanId × ℝ))) ++ [] = []
    rw [scanNames_cons_neg _ _ _ _ _ (show ¬ (19 : ℝ) / 20 ≤
          calculate_similarity (str "e") (str "ee") from by
        intro hcon; have h2 := hb.2; linarith),
      scanNames_nil]
    rfl
  have hfm : find_matches calculate_similarity (stEE (19 / 20)) obsE2 = [] := by
    unfold find_matches
    rw [if_neg (show ¬ strGet obsE2 (str "name") [] = [] from by decide),
        show exact_part (stEE (19 / 20)) obsE2 = [] from rfl, hfz,
        show prop_part (stEE (19 / 20)) obsE2 = [] from rfl]
    rfl
  rw [add_entity_of_matches_nil _ _ _ hfm]
  rfl

set_option maxHeartbeats 1000000 in
lemma step_t2_o3 :
    add_entity calculate_similarity stT2b obsE3 = (cidE, true, stT2c) := by
  have hfz : fuzzy_part calculate_similarity stT2b obsE3 = [] := by
    show ((match scanNames calculate_similarity ((19 : ℝ) / 20) (str "rr") [str "ee"] with
      | some s => [(cidEE, s)]
      | none => ([] : List (CanId × ℝ))) ++
      ((match scanNames calculate_similarity ((19 : ℝ) / 20) (str "rr") [str "e"] with
        | some s => [(cidE, s)]
        | none => ([] : List (CanId × ℝ))) ++ [])) = []
    rw [scanNames_cons_neg _ _ _ _ _ (show ¬ (19 : ℝ) / 20 ≤
          calculate_similarity (str "rr") (str "ee") from by
        rw [calcSim_zero_rr_ee]; norm_num),
      scanNames_cons_neg _ _ _ _ _ (show ¬ (19 : ℝ) / 20 ≤
          calculate_similarity (str "rr") (str "e") from by
        rw [calcSim_zero_rr_e]; norm_num),
      scanNames_nil]
    rfl
  have hfm : find_matches calculate_similarity stT2b obsE3 = [(cidE, (1 : ℝ))] := by
    unfold find_matches
    rw [if_neg (show ¬ strGet obsE3 (str "name") [] = [] from by decide),
        show exact_part stT2b obsE3 = [] from rfl, hfz,
        show prop_part stT2b obsE3 = [(cidE, (1 : ℝ))] from rfl]
    rfl
  unfold add_entity
  rw [hfm]
  show (if stT2b.similarity_threshold ≤ (1 : ℝ)
      then ((cidE, true, merge_entities stT2b cidE obsE3 1) : CanId × Bool × DState)
      else mint_entity stT2b obsE3) = (cidE, true, stT2c)
  rw [if_pos (show stT2b.similarity_threshold ≤ (1 : ℝ) from by
    show (19 : ℝ) / 20 ≤ 1; norm_num)]
  rfl

set_option maxHeartbeats 1000000 in
lemma step_t2_o4 :
    add_entity calculate_similarity stT2c obsE4 =
      (cidE, true, merge_entities stT2c cidE obsE4 (95 / 100)) := by
  have hfz : fuzzy_part calculate_similarity stT2c obsE4 = [] := by
    show ((match scanNames calculate_similarity ((19 : ℝ) / 20) (str "ss") [str "ee"] with
      | some s => [(cidEE, s)]
      | none => ([] : List (CanId × ℝ))) ++
      ((match scanNames calculate_similarity ((19 : ℝ) / 20) (str "ss")
          [str "e", str "rr"] with
        | some s => [(cidE, s)]
        | none => ([] : List (CanId × ℝ))) ++ [])) = []
    rw [scanNames_cons_neg _ _ _ _ _ (show ¬ (19 : ℝ) / 20 ≤
          calculate_similarity (str "ss") (str "ee") from by
        rw [calcSim_zero_ss_ee]; norm_num),
      scanNames_cons_neg _ _ _ _ _ (show ¬ (19 : ℝ) / 20 ≤
          calculate_similarity (str "ss") (str "e") from by
        rw [calcSim_zero_ss_e]; norm_num),
      scanNames_cons_neg _ _ _ _ _ (show ¬ (19 : ℝ) / 20 ≤
          calculate_similarity (str "ss") (str "rr") from by
        rw [calcSim_zero_ss_rr]; norm_num),
      scanNames_nil]
    rfl
  have hfm : find_matches calculate_similarity stT2c obsE4 = [(cidE, (95 : ℝ) / 100)] := by
    unfold find_matches
    rw [if_neg (show ¬ strGet obsE4 (str "name") [] = [] from by decide),
        show exact_part stT2c obsE4 = [] from rfl, hfz,
        show prop_part stT2c obsE4 = [(cidE, (95 : ℝ) / 100)] from rfl]
    rfl
  unfold add_entity
  rw [hfm]
  show (if stT2c.similarity_threshold ≤ (95 : ℝ) / 100
      then ((cidE, true, merge_entities stT2c cidE obsE4 ((95 : ℝ) / 100)) :
        CanId × Bool × DState)
      else mint_entity stT2c obsE4) = _
  rw [if_pos (show stT2c.similarity_threshold ≤ (95 : ℝ) / 100 from by
    show (19 : ℝ) / 20 ≤ 95 / 100; norm_num)]

lemma runSteps_cons_eval (sim : Str → Str → ℝ) (st st2 : DState) (e : Entity)
    (es : List Entity) (cid : CanId) (b : Bool)
    (h : add_entity sim st e = (cid, b, st2)) :
    (runSteps sim st (e :: es)).2 = (cid, b, e) :: (runSteps sim st2 es).2 := by
  show ((add_entity sim st e).1, (add_entity sim st e).2.1, e) ::
      (runSteps sim (add_entity sim st e).2.2 es).2 = _
  rw [h]

lemma run_t1_events :
    (runSteps calculate_similarity (init_state (1 / 100))
        [obsE1, obsE2, obsE3, obsE4]).2 =
      [(cidEE, false, obsE1), (cidEE, true, obsE2),
       (cidRR, false, obsE3), (cidSS, false, obsE4)] := by
  rw [runSteps_cons_eval calculate_similarity (init_state (1 / 100)) (stEE (1 / 100)) obsE1
      [obsE2, obsE3, obsE4] cidEE false (step_o1 (1 / 100)),
    runSteps_cons_eval calculate_similarity (stEE (1 / 100)) stT1b obsE2
      [obsE3, obsE4] cidEE true step_t1_o2,
    runSteps_cons_eval calculate_similarity stT1b stT1c obsE3
      [obsE4] cidRR false step_t1_o3,
    runSteps_cons_eval calculate_similarity stT1c ((mint_entity stT1c obsE4).2.2) obsE4
      [] cidSS false step_t1_o4]
  rfl

lemma run_t2_events :
    (runSteps calculate_similarity (init_state (19 / 20))
        [obsE1, obsE2, obsE3, obsE4]).2 =
      [(cidEE, false, obsE1), (cidE, false, obsE2),
       (cidE, true, obsE3), (cidE, true, obsE4)] := by
  rw [runSteps_cons_eval calculate_similarity (init_state (19 / 20)) (stEE (19 / 20)) obsE1
      [obsE2, obsE3, obsE4] cidEE false (step_o1 (19 / 20)),
    runSteps_cons_eval calculate_similarity (stEE (19 / 20)) stT2b obsE2
      [obsE3, obsE4] cidE false step_t2_o2,
    runSteps_cons_eval calculate_similarity stT2b stT2c obsE3
      [obsE4] cidE true step_t2_o3,
    runSteps_cons_eval calculate_similarity stT2c
      (merge_entities stT2c cidE obsE4 (95 / 100)) obsE4 [] cidE true step_t2_o4]
  rfl

/-- C9 counterexample: over the fixed four-observation input
`[obsE1, obsE2, obsE3, obsE4]` the run at the LOWER threshold `1/100` performs
one merge, while the run at the HIGHER threshold `19/20` performs two — the
whole-sequence claim is false. At `1/100` the second observation fuzzy-merges
into the first entity, whose first-write-wins property merge then hides the
second observation's identifier and email, so the third and fourth
observations mint; at `19/20` the second observation mints its own entity,
which the third observation then matches by identifier (score 1.0) and the
fourth by email (score 0.95 ≥ 19/20). -/
theorem C9_counterexample :
    (1 : ℝ) / 100 ≤ 19 / 20 ∧
    mergeCount (runSteps calculate_similarity (init_state (1 / 100))
      [obsE1, obsE2, obsE3, obsE4]).2 = 1 ∧
    mergeCount (runSteps calculate_similarity (init_state (19 / 20))
      [obsE1, obsE2, obsE3, obsE4]).2 = 2 := by
  refine ⟨by norm_num, ?_, ?_⟩
  · rw [run_t1_events]
    rfl
  · rw [run_t2_events]
    rfl

/-- C9 witness: the per-call monotonicity theorem applied at the concrete
state holding the canonical entity for `"ee"`: `obsE2` merges at threshold
`1/100`, hence also at the lower threshold `1/200`. -/
theorem C9_witness :
    ((1 : ℝ) / 200 ≤ 1 / 100 ∧
      (add_entity calculate_similarity (withThr (stEE (1 / 100)) (1 / 100)) obsE2).2.1
        = true) ∧
    (add_entity calculate_similarity (withThr (stEE (1 / 100)) (1 / 200)) obsE2).2.1
      = true :=
  ⟨⟨by norm_num, by
      rw [show withThr (stEE (1 / 100)) (1 / 100) = stEE (1 / 100) from rfl, step_t1_o2]⟩,
    C9_step_monotone (stEE (1 / 100)) obsE2 (1 / 200) (1 / 100) (by norm_num)
      (by rw [show withThr (stEE (1 / 100)) (1 / 100) = stEE (1 / 100) from rfl,
        step_t1_o2])⟩

/-- C1 witness: the amended alias invariant applied to the concrete two-step
run in which `obsE2` merges into the entity minted for `obsE1` — the final
registry records `obsE2`'s raw name among the aliases. -/
theorem C1_witness :
    ((runSteps calculate_similarity (init_state (1 / 100)) [obsE1, obsE2]).2 =
      [(cidEE, false, obsE1)] ++ (cidEE, true, obsE2) :: [] ∧
      ((cidEE, true, obsE2) : CanId × Bool × Entity).2.1 = true) ∧
    GoodAt (runSteps calculate_similarity (init_state (1 / 100)) [obsE1, obsE2]).1
      cidEE obsE2 := by
  have hdec : (runSteps calculate_similarity (init_state (1 / 100)) [obsE1, obsE2]).2 =
      [(cidEE, false, obsE1)] ++ (cidEE, true, obsE2) :: [] := by
    rw [runSteps_cons_eval calculate_similarity (init_state (1 / 100)) (stEE (1 / 100)) obsE1
        [obsE2] cidEE false (step_o1 (1 / 100)),
      runSteps_cons_eval calculate_similarity (stEE (1 / 100)) stT1b obsE2
        [] cidEE true step_t1_o2]
    rfl
  exact ⟨⟨hdec, rfl⟩, C1_alias_invariant_amended (1 / 100) [obsE1, obsE2]
    [(cidEE, false, obsE1)] [] (cidEE, true, obsE2) hdec rfl (by simp)⟩

/-! ### Replay equivalence (claim C2) -/

lemma lookupL_append_left {α β : Type} [DecidableEq α] (l l2 : List (α × β)) (k : α) (v : β)
    (h : lookupL l k = some v) : lookupL (l ++ l2) k = some v := by
  induction l with
  | nil => simp [lookupL] at h
  | cons kv rest ih =>
    rw [List.cons_append]
    by_cases hk : kv.1 = k
    · unfold lookupL at h ⊢
      rw [List.find?_cons_of_pos _ (by simpa using hk)] at h ⊢
      exact h
    · unfold lookupL at h ⊢
      rw [List.find?_cons_of_neg _ (by simpa using hk)] at h ⊢
      exact ih h

lemma lookupL_append_isSome {α β : Type} [DecidableEq α] (l l2 : List (α × β)) (k : α)
    (h : (lookupL l k).isSome) : (lookupL (l ++ l2) k).isSome := by
  obtain ⟨v, hv⟩ := Option.isSome_iff_exists.mp h
  rw [lookupL_append_left l l2 k v hv]
  rfl

lemma applyObs_congr (obs obs2 : List (Nat × PObs)) (core : PCanCore) (i : Nat)
    (h : lookupL obs2 i = lookupL obs i) :
    applyObs obs2 core i = applyObs obs core i := by
  unfold applyObs
  rw [h]

lemma foldl_applyObs_congr (obs obs2 : List (Nat × PObs)) :
    ∀ (ids : List Nat) (core : PCanCore),
    (∀ i ∈ ids, lookupL obs2 i = lookupL obs i) →
    ids.foldl (applyObs obs2) core = ids.foldl (applyObs obs) core := by
  intro ids
  induction ids with
  | nil => intro core _; rfl
  | cons i rest ih =>
    intro core h
    simp only [List.foldl_cons]
    rw [applyObs_congr obs obs2 core i (h i (by simp))]
    exact ih _ (fun j hj => h j (by simp [hj]))

lemma applyResolveRecord_congr (obs obs2 : List (Nat × PObs)) (canon : List (Nat × PCanCore))
    (ids : List Nat) (cid : Nat)
    (h : ∀ i ∈ ids, lookupL obs2 i = lookupL obs i) :
    applyResolveRecord obs2 canon ids cid = applyResolveRecord obs canon ids cid := by
  show setKey canon cid (ids.foldl (applyObs obs2)
      (match lookupL canon cid with
       | some c => c
       | none =>
         match ids.head? >>= lookupL obs2 with
         | some f => ⟨f.name, f.entity_type, [f.name], [], []⟩
         | none => ⟨[], [], [], [], []⟩)) =
    setKey canon cid (ids.foldl (applyObs obs)
      (match lookupL canon cid with
       | some c => c
       | none =>
         match ids.head? >>= lookupL obs with
         | some f => ⟨f.name, f.entity_type, [f.name], [], []⟩
         | none => ⟨[], [], [], [], []⟩))
  have hbase : (match lookupL canon cid with
      | some c => c
      | none =>
        match ids.head? >>= lookupL obs2 with
        | some f => (⟨f.name, f.entity_type, [f.name], [], []⟩ : PCanCore)
        | none => ⟨[], [], [], [], []⟩) =
      (match lookupL canon cid with
       | some c => c
       | none =>
         match ids.head? >>= lookupL obs with
         | some f => (⟨f.name, f.entity_type, [f.name], [], []⟩ : PCanCore)
         | none => ⟨[], [], [], [], []⟩) := by
    cases lookupL canon cid with
    | some c => rfl
    | none =>
      cases ids with
      | nil => rfl
      | cons a rest =>
        have ha : lookupL obs2 a = lookupL obs a := h a (by simp)
        show (match lookupL obs2 a with
          | some f => (⟨f.name, f.entity_type, [f.name], [], []⟩ : PCanCore)
          | none => ⟨[], [], [], [], []⟩) =
         (match lookupL obs a with
          | some f => (⟨f.name, f.entity_type, [f.name], [], []⟩ : PCanCore)
          | none => ⟨[], [], [], [], []⟩)
        rw [ha]
  rw [hbase, foldl_applyObs_congr obs obs2 ids _ h]

lemma replay_congr (obs obs2 : List (Nat × PObs)) :
    ∀ (log : List TRec) (canon : List (Nat × PCanCore)),
    ObsCover obs log →
    (∀ i, (lookupL obs i).isSome → lookupL obs2 i = lookupL obs i) →
    log.foldl (fun canon r =>
      match r.payload with
      | .extract .. => canon
      | .resolveT ids cid _ _ _ => applyResolveRecord obs2 canon ids cid) canon =
    log.foldl (fun canon r =>
      match r.payload with
      | .extract .. => canon
      | .resolveT ids cid _ _ _ => applyResolveRecord obs canon ids cid) canon := by
  intro log
  induction log with
  | nil => intro canon _ _; rfl
  | cons r rest ih =>
    intro canon hc hl
    simp only [List.foldl_cons]
    have hstep : (match r.payload with
        | .extract .. => canon
        | .resolveT ids cid _ _ _ => applyResolveRecord obs2 canon ids cid) =
       (match r.payload with
        | .extract .. => canon
        | .resolveT ids cid _ _ _ => applyResolveRecord obs canon ids cid) := by
      cases hp : r.payload with
      | extract a b c d e => rfl
      | resolveT ids cid m2 ts c =>
        exact applyResolveRecord_congr obs obs2 canon ids cid
          (fun i hi => hl i (hc r (by simp) ids cid m2 ts c hp i hi))
    rw [hstep]
    exact ih _ (fun r2 hr2 ids cid m2 ts c hp i hi =>
      hc r2 (by simp [hr2]) ids cid m2 ts c hp i hi) hl

lemma replay_append_obs (obs : List (Nat × PObs)) (x : Nat × PObs) (log : List TRec)
    (hc : ObsCover obs log) :
    replay_canonical (obs ++ [x]) log = replay_canonical obs log :=
  replay_congr obs (obs ++ [x]) log [] hc
    (fun i hi => by
      obtain ⟨v, hv⟩ := Option.isSome_iff_exists.mp hi
      rw [hv, lookupL_append_left obs [x] i v hv])

lemma replay_append_record (obs : List (Nat × PObs)) (log : List TRec) (r : TRec) :
    replay_canonical obs (log ++ [r]) =
      (match r.payload with
        | .extract .. => replay_canonical obs log
        | .resolveT ids cid _ _ _ =>
          applyResolveRecord obs (replay_canonical obs log) ids cid) := by
  unfold replay_canonical
  rw [List.foldl_append]
  rfl

lemma coreMap_lookup (l : List (Nat × PCan)) (k : Nat) :
    lookupL (coreMap l) k = (lookupL l k).map PCan.core := by
  induction l with
  | nil => rfl
  | cons kv rest ih =>
    show lookupL ((kv.1, kv.2.core) :: coreMap rest) k = _
    by_cases hk : kv.1 = k
    · unfold lookupL
      rw [List.find?_cons_of_pos _ (by simp [hk]), List.find?_cons_of_pos _ (by simp [hk])]
      rfl
    · unfold lookupL
      rw [List.find?_cons_of_neg _ (by simp [hk]), List.find?_cons_of_neg _ (by simp [hk])]
      exact ih

lemma coreMap_setKey (l : List (Nat × PCan)) (k : Nat) (v : PCan) :
    coreMap (setKey l k v) = setKey (coreMap l) k v.core := by
  induction l with
  | nil => rfl
  | cons kv rest ih =>
    show coreMap (if kv.1 = k then (k, v) :: rest else kv :: setKey rest k v) =
      (if kv.1 = k then (k, v.core) :: coreMap rest
       else (kv.1, kv.2.core) :: setKey (coreMap rest) k v.core)
    by_cases hk : kv.1 = k
    · rw [if_pos hk, if_pos hk]
      rfl
    · rw [if_neg hk, if_neg hk]
      show (kv.1, kv.2.core) :: coreMap (setKey rest k v) = _
      rw [ih]

lemma obsCover_extend (obs obs2 : List (Nat × PObs)) (log : List TRec)
    (hc : ObsCover obs log)
    (hl : ∀ i, (lookupL obs i).isSome → (lookupL obs2 i).isSome) : ObsCover obs2 log :=
  fun r hr ids cid m ts c hp i hi => hl i (hc r hr ids cid m ts c hp i hi)

lemma obsCover_append_extract (obs : List (Nat × PObs)) (log : List TRec)
    (a : Str) (b : Nat) (m : Str) (ts : Nat) (conf : ℚ) (hc : ObsCover obs log) :
    ObsCover obs (log ++ [⟨.extract a b m ts conf, ⟨.extract a b m ts conf⟩⟩]) := by
  intro r2 hr2 ids cid m2 ts2 c2 hp i hi
  rcases List.mem_append.mp hr2 with h3 | h3
  · exact hc r2 h3 ids cid m2 ts2 c2 hp i hi
  · exfalso
    have hr2eq : r2 = ⟨.extract a b m ts conf, ⟨.extract a b m ts conf⟩⟩ := by
      simpa using h3
    subst hr2eq
    have hp2 : TPayload.extract a b m ts conf = .resolveT ids cid m2 ts2 c2 := hp
    exact TPayload.noConfusion hp2

lemma obsCover_append_resolve (obs : List (Nat × PObs)) (log : List TRec)
    (ids : List Nat) (cid : Nat) (m : Str) (ts : Nat) (conf : ℚ)
    (hc : ObsCover obs log) (hids : ∀ i ∈ ids, (lookupL obs i).isSome) :
    ObsCover obs (log ++ [⟨.resolveT ids cid m ts conf, ⟨.resolveT ids cid m ts conf⟩⟩]) := by
  intro r2 hr2 ids2 cid2 m2 ts2 c2 hp i hi
  rcases List.mem_append.mp hr2 with h3 | h3
  · exact hc r2 h3 ids2 cid2 m2 ts2 c2 hp i hi
  · have hr2eq : r2 = ⟨.resolveT ids cid m ts conf, ⟨.resolveT ids cid m ts conf⟩⟩ := by
      simpa using h3
    subst hr2eq
    have hp2 : TPayload.resolveT ids cid m ts conf = .resolveT ids2 cid2 m2 ts2 c2 := hp
    injection hp2 with e1 e2 e3 e4 e5
    subst e1
    exact hids i hi

lemma replay_extend_extract (obs : List (Nat × PObs)) (x : Nat × PObs) (log : List TRec)
    (a : Str) (b : Nat) (m : Str) (ts : Nat) (conf : ℚ) (hc : ObsCover obs log) :
    replay_canonical (obs ++ [x])
        (log ++ [⟨.extract a b m ts conf, ⟨.extract a b m ts conf⟩⟩]) =
      replay_canonical obs log := by
  rw [replay_append_record]
  exact replay_append_obs obs x log hc

lemma pinv_record (st : PTState) (e : Entity) (d c : Str) (pos : List (Str × Val)) (m : Str)
    (h1 : coreMap st.canonical = replay_canonical st.observations st.transformations)
    (h2 : ObsCover st.observations st.transformations) :
    coreMap (record_observation st e d c pos m).2.canonical =
      replay_canonical (record_observation st e d c pos m).2.observations
        (record_observation st e d c pos m).2.transformations ∧
    ObsCover (record_observation st e d c pos m).2.observations
      (record_observation st e d c pos m).2.transformations := by
  obtain ⟨x, hobs⟩ : ∃ x, (record_observation st e d c pos m).2.observations =
      st.observations ++ [x] := ⟨_, rfl⟩
  obtain ⟨a, b, m2, ts, conf, htr⟩ : ∃ a b m2 ts conf,
      (record_observation st e d c pos m).2.transformations =
        st.transformations ++ [⟨.extract a b m2 ts conf, ⟨.extract a b m2 ts conf⟩⟩] :=
    ⟨_, _, _, _, _, rfl⟩
  refine ⟨?_, ?_⟩
  · rw [show (record_observation st e d c pos m).2.canonical = st.canonical from rfl,
      hobs, htr, replay_extend_extract st.observations x st.transformations a b m2 ts conf h2]
    exact h1
  · rw [hobs, htr]
    exact obsCover_append_extract _ _ a b m2 ts conf (obsCover_extend _ _ _ h2
      (fun i hi => lookupL_append_isSome _ _ _ hi))

lemma coreMap_resolve_step (st : PTState) (ids : List Nat) (cid : Nat)
    (res : List Nat) (created updated ts : Nat) (conf : ℚ) (mm : Str)
    (h1 : coreMap st.canonical = replay_canonical st.observations st.transformations) :
    coreMap (setKey st.canonical cid
      ⟨ids.foldl (applyObs st.observations)
        ((match lookupL st.canonical cid with
         | some c => c
         | none =>
           match ids.head? >>= lookupL st.observations with
           | some f => ⟨⟨f.name, f.entity_type, [f.name], [], []⟩, [], st.clock, st.clock⟩
           | none => ⟨⟨[], [], [], [], []⟩, [], st.clock, st.clock⟩ : PCan)).core,
       res, created, updated⟩) =
    replay_canonical st.observations
      (st.transformations ++
        [⟨.resolveT ids cid mm ts conf, ⟨.resolveT ids cid mm ts conf⟩⟩]) := by
  rw [replay_append_record, ← h1]
  show coreMap (setKey st.canonical cid _) =
    setKey (coreMap st.canonical) cid (ids.foldl (applyObs st.observations)
      (match lookupL (coreMap st.canonical) cid with
       | some c => c
       | none =>
         match ids.head? >>= lookupL st.observations with
         | some f => ⟨f.name, f.entity_type, [f.name], [], []⟩
         | none => ⟨[], [], [], [], []⟩))
  rw [coreMap_setKey]
  have hbase : ((match lookupL st.canonical cid with
      | some c => c
      | none =>
        match ids.head? >>= lookupL st.observations with
        | some f => ⟨⟨f.name, f.entity_type, [f.name], [], []⟩, [], st.clock, st.clock⟩
        | none => ⟨⟨[], [], [], [], []⟩, [], st.clock, st.clock⟩ : PCan)).core =
      (match lookupL (coreMap st.canonical) cid with
       | some c => c
       | none =>
         match ids.head? >>= lookupL st.observations with
         | some f => (⟨f.name, f.entity_type, [f.name], [], []⟩ : PCanCore)
         | none => ⟨[], [], [], [], []⟩) := by
    rw [coreMap_lookup]
    cases lookupL st.canonical cid with
    | some c => rfl
    | none =>
      cases ids.head? >>= lookupL st.observations with
      | some f => rfl
      | none => rfl
  rw [hbase]

lemma pinv_resolve (st : PTState) (ids : List Nat) (m : Str) (r : Nat × PTState)
    (hval : (!ids.isEmpty && ids.all (fun i => (lookupL st.observations i).isSome)) = true)
    (hcreate : create_canonical_entity st ids m = some r)
    (h1 : coreMap st.canonical = replay_canonical st.observations st.transformations)
    (h2 : ObsCover st.observations st.transformations) :
    coreMap r.2.canonical = replay_canonical r.2.observations r.2.transformations ∧
    ObsCover r.2.observations r.2.transformations := by
  rw [Bool.and_eq_true] at hval
  have hids : ∀ i ∈ ids, (lookupL st.observations i).isSome := by
    intro i hi
    simpa using (List.all_eq_true.mp hval.2) i hi
  have hguard : ¬ (ids.isEmpty = true ∨
      ¬ ids.all (fun i => (lookupL st.observations i).isSome) = true) := by
    intro hcon
    rcases hcon with hcon | hcon
    · rw [hcon] at hval
      simp at hval
    · exact hcon hval.2
  unfold create_canonical_entity at hcreate
  rw [if_neg hguard] at hcreate
  have hr := (Option.some_inj.mp hcreate).symm
  subst hr
  refine ⟨?_, ?_⟩
  · exact coreMap_resolve_step st ids _ _ _ _ _ _ m h1
  · exact obsCover_append_resolve st.observations st.transformations ids _ m _ _ h2 hids

lemma create_canonical_entity_isSome (st : PTState) (ids : List Nat) (m : Str)
    (hval : (!ids.isEmpty && ids.all (fun i => (lookupL st.observations i).isSome)) = true) :
    (create_canonical_entity st ids m).isSome := by
  rw [Bool.and_eq_true] at hval
  unfold create_canonical_entity
  rw [if_neg]
  · rfl
  · intro hcon
    rcases hcon with hcon | hcon
    · rw [hcon] at hval
      simp at hval
    · exact hcon hval.2

lemma prun_pinv : ∀ (ops : List POp) (st : PTState),
    opsValid st ops = true →
    coreMap st.canonical = replay_canonical st.observations st.transformations →
    ObsCover st.observations st.transformations →
    coreMap (prun st ops).canonical =
      replay_canonical (prun st ops).observations (prun st ops).transformations := by
  intro ops
  induction ops with
  | nil => intro st _ h1 _; exact h1
  | cons op rest ih =>
    intro st hv h1 h2
    have hv1 : opValid st op = true ∧ opsValid (pstep st op) rest = true := by
      simpa [opsValid, Bool.and_eq_true] using hv
    have hstep : coreMap (pstep st op).canonical =
        replay_canonical (pstep st op).observations (pstep st op).transformations ∧
        ObsCover (pstep st op).observations (pstep st op).transformations := by
      cases op with
      | record e d c pos m => exact pinv_record st e d c pos m h1 h2
      | resolveOp ids m =>
        have hval : (!ids.isEmpty &&
            ids.all (fun i => (lookupL st.observations i).isSome)) = true := hv1.1
        obtain ⟨r, hcr⟩ :=
          Option.isSome_iff_exists.mp (create_canonical_entity_isSome st ids m hval)
        have hps : pstep st (.resolveOp ids m) = r.2 := by
          show (match create_canonical_entity st ids m with
            | some r2 => r2.2
            | none => st) = r.2
          rw [hcr]
        rw [hps]
        exact pinv_resolve st ids m r hval hcr h1 h2
    exact ih (pstep st op) hv1.2 hstep.1 hstep.2

/-- C2: replay equivalence. For every valid call sequence from a fresh
tracker, the replay-relevant core of the live canonical-entity store (primary
name, entity type, name variants, merged properties, and contributing
observation membership) is exactly reproduced by discarding the store and
replaying the transformation log in order (the log is append-only, so its
order is its timestamp order; `Extract` records rebuild no canonical state,
and each `Resolve` record re-applies its recorded merge). -/
theorem C2_replay_equivalence (ops : List POp) (h : opsValid pinit ops = true) :
    coreMap (prun pinit ops).canonical =
      replay_canonical (prun pinit ops).observations (prun pinit ops).transformations :=
  prun_pinv ops pinit h rfl (fun r hr => absurd hr (List.not_mem_nil r))

/-- C2 witness: a concrete record-then-resolve run, replayed exactly. -/
theorem C2_witness :
    opsValid pinit
      [POp.record [(str "@type", .s (str "T")), (str "name", .s (str "gg"))]
        (str "doc") (str "cid0") [] (str "llm"),
       POp.resolveOp [0] (str "exact_match")] = true ∧
    coreMap (prun pinit
      [POp.record [(str "@type", .s (str "T")), (str "name", .s (str "gg"))]
        (str "doc") (str "cid0") [] (str "llm"),
       POp.resolveOp [0] (str "exact_match")]).canonical =
      replay_canonical (prun pinit
        [POp.record [(str "@type", .s (str "T")), (str "name", .s (str "gg"))]
          (str "doc") (str "cid0") [] (str "llm"),
         POp.resolveOp [0] (str "exact_match")]).observations
        (prun pinit
          [POp.record [(str "@type", .s (str "T")), (str "name", .s (str "gg"))]
            (str "doc") (str "cid0") [] (str "llm"),
           POp.resolveOp [0] (str "exact_match")]).transformations :=
  ⟨by decide,
   C2_replay_equivalence
     [POp.record [(str "@type", .s (str "T")), (str "name", .s (str "gg"))]
       (str "doc") (str "cid0") [] (str "llm"),
      POp.resolveOp [0] (str "exact_match")] (by decide)⟩

end Koi
